import Mathlib

/-!
PassVault: session controller, vault operations and field-matching engine.

A shallow embedding of the PassVault browser extension: the background service worker
(`src/extension/background.js`, with the helpers it calls from `scripts/crypto.js`,
`scripts/storage.js` and `scripts/generator.js`), the content script
(`src/extension/content.js`) and `escapeHtml` (also in `popup.js`).

* The module-level variables `derivedKey`, `unlockedAt`, `autolockMs` and the three
  browser stores the worker talks to (`chrome.storage.local`, IndexedDB,
  `chrome.storage.session`) together with the armed `autolock` alarm form one
  `State` record; every `async` function becomes a function on that record.
* WebCrypto (`crypto.subtle`) and base64 are not part of the repository: they are a
  parameter `Crypto`, and theorems that need a property of them (decrypting what was
  encrypted gives the document back, importing what was exported gives the key back)
  state it as a hypothesis.
* A thrown `Error` is an `Except String` result carrying the message; the `catch` of
  the message listener turns it into the `fail` response.
* A finite JavaScript number is the rational value of the double (`ℚ`); the quotient
  `x / 60000` is rounded to the nearest double (53-bit significand, ties to even) as
  IEEE 754 division does, and `Math.round` is the floor of its argument plus one half.
* The document is a `Page`: its `input` elements in document order with the properties
  the content script reads; an element is identified by its position.
-/

namespace PassVault

/-! ## Data model -/

/-- One credential of the vault document: `{id, origins, username, password, notes}`.
`origins` is `none` when the property is missing (`c.origins?.includes` is then falsy). -/
structure Credential where
  id : String
  origins : Option (List String)
  username : String
  password : String
  notes : String
deriving DecidableEq, Repr

/-- The decrypted vault document `{ creds: [...] }`. -/
structure Vault where
  creds : List Credential
deriving DecidableEq, Repr

/-- The plaintext metadata record kept under `META_KEY` in `chrome.storage.local`. -/
structure VaultMeta where
  kdf : String
  iterations : Nat
  saltB64 : String
  autolockMs : ℚ
  createdAt : Nat
  updatedAt : Nat
deriving DecidableEq, Repr

/-! ## scripts/generator.js -/

/-- The `options` object of `generatePassword`; a missing property is `none`. -/
structure GenOptions where
  length : Option Int
  lower : Option Bool
  upper : Option Bool
  digits : Option Bool
  symbols : Option Bool
deriving DecidableEq, Repr

/-- The closure `rnd`: the `k`-th call returns the `k`-th value of the random source,
read through a `Uint32Array` cell. -/
def rndAt (rnd : Nat → Nat) (k : Nat) : Nat := rnd k % 4294967296

/-- `pick(chars, n, rnd)`: `n` characters drawn from `chars`; the second component is
the number of calls of `rnd` made so far. -/
def pick (chars : List Char) (n : Nat) (rnd : Nat → Nat) (k : Nat) : List Char × Nat :=
  if chars.length = 0 then ([], k)
  else
    (List.range n).foldl
      (fun (acc : List Char × Nat) _ =>
        (acc.1 ++ (chars.get? (rndAt rnd acc.2 % chars.length)).toList, acc.2 + 1))
      ([], k)

/-- One iteration of the loop of `shuffle`: swap positions `i` and `rnd() % (i + 1)`. -/
def shuffleStep (rnd : Nat → Nat) (acc : List Char × Nat) (i : Nat) : List Char × Nat :=
  let j := rndAt rnd acc.2 % (i + 1)
  let ai := acc.1.getD i ' '
  let aj := acc.1.getD j ' '
  ((acc.1.set i aj).set j ai, acc.2 + 1)

/-- `shuffle(str, rnd)`: Fisher-Yates, `i` running from `length - 1` down to `1`. -/
def shuffle (str : List Char) (rnd : Nat → Nat) (k : Nat) : List Char × Nat :=
  ((List.range (str.length - 1)).reverse.map (fun i => i + 1)).foldl (shuffleStep rnd) (str, k)

def lowers : List Char := "abcdefghijklmnopqrstuvwxyz".toList

def uppers : List Char := "ABCDEFGHIJKLMNOPQRSTUVWXYZ".toList

def digits : List Char := "0123456789".toList

def isDigitCh (ch : Char) : Bool := decide ('0' ≤ ch) && decide (ch ≤ '9')

def isUpperCh (ch : Char) : Bool := decide ('A' ≤ ch) && decide (ch ≤ 'Z')

def isLowerCh (ch : Char) : Bool := decide ('a' ≤ ch) && decide (ch ≤ 'z')

/-- The symbol set: printable ASCII 33..126 without the alphanumerics. -/
def symbols : List Char :=
  ((List.range 94).map (fun i => Char.ofNat (i + 33))).filter
    (fun ch => !(isDigitCh ch || isUpperCh ch || isLowerCh ch))

/-- The helper `replaceWith(set)`: overwrite a random position by a random member. -/
def replaceWith (set : List Char) (rnd : Nat → Nat) (acc : List Char × Nat) : List Char × Nat :=
  let pos := rndAt rnd acc.2 % acc.1.length
  let ch := set.get? (rndAt rnd (acc.2 + 1) % set.length)
  (acc.1.take pos ++ ch.toList ++ acc.1.drop (pos + 1), acc.2 + 2)

/-- `generatePassword(options)` over the random source `rnd`. -/
def generatePassword (options : GenOptions) (rnd : Nat → Nat) : List Char :=
  let len0 : Int := match options.length with
    | none => 16
    | some n => if n = 0 then 16 else n
  let length : Int := max 8 (min 128 len0)
  let useLower := options.lower != some false
  let useUpper := options.upper != some false
  let useDigits := options.digits != some false
  let useSymbols := options.symbols != some false
  let pool0 := (if useLower then lowers else []) ++ (if useUpper then uppers else [])
    ++ (if useDigits then digits else []) ++ (if useSymbols then symbols else [])
  let pool := if pool0.isEmpty then lowers ++ uppers ++ digits ++ symbols else pool0
  let b1 := if useLower then pick lowers 1 rnd 0 else ([], 0)
  let b2 := if useUpper then ((pick uppers 1 rnd b1.2).map (b1.1 ++ ·) id) else b1
  let b3 := if useDigits then ((pick digits 1 rnd b2.2).map (b2.1 ++ ·) id) else b2
  let b4 := if useSymbols then ((pick symbols 1 rnd b3.2).map (b3.1 ++ ·) id) else b3
  let base := b4.1
  let rest := pick pool (length - (base.length : Int)).toNat rnd b4.2
  let p0 := shuffle (base ++ rest.1) rnd rest.2
  let hasLower := p0.1.any isLowerCh
  let hasUpper := p0.1.any isUpperCh
  let hasDigit := p0.1.any isDigitCh
  let hasSymbol := p0.1.any (fun ch => !(isDigitCh ch || isUpperCh ch || isLowerCh ch))
  let p1 := if useLower && !hasLower then replaceWith lowers rnd p0 else p0
  let p2 := if useUpper && !hasUpper then replaceWith uppers rnd p1 else p1
  let p3 := if useDigits && !hasDigit then replaceWith digits rnd p2 else p2
  let p4 := if useSymbols && !hasSymbol then replaceWith symbols rnd p3 else p3
  p4.1

/-! ## The external primitives -/

/-- WebCrypto and base64 as used by `scripts/crypto.js`. `decryptJSON` is `none` when
`crypto.subtle.decrypt` rejects (the integrity tag does not verify); `exportKey` and
`importKey` are `none` when the call rejects. -/
structure Crypto where
  Key : Type
  Enc : Type
  Jwk : Type
  bytesToBase64 : List Nat → String
  base64ToBytes : String → List Nat
  deriveKeyPBKDF2 : String → List Nat → Nat → Key
  encryptJSON : Vault → Key → List Nat → Enc
  decryptJSON : Enc → Key → Option Vault
  exportKey : Key → Option Jwk
  importKey : Jwk → Option Key

/-- What one run of a handler reads from outside: the clock (`Date.now()`), the random
bytes for a fresh salt and a fresh nonce, and the generator's random source. -/
structure Env where
  now : Nat
  saltBytes : List Nat
  iv : List Nat
  rnd : Nat → Nat

/-! ## src/extension/background.js -/

/-- Module variables of the worker and the stores it reads and writes.
`alarm` is the `delayInMinutes` of the armed `autolock` alarm, `none` when no such
alarm is armed. -/
structure State (cr : Crypto) where
  derivedKey : Option cr.Key
  unlockedAt : Nat
  autolockMs : ℚ
  localMeta : Option VaultMeta
  vault : Option cr.Enc
  session : Option cr.Jwk
  alarm : Option Int

/-- The value of `Number(msg.ms)`: a finite double, given by its rational value, or one
of `Infinity`, `-Infinity`, `NaN`. -/
inductive JsNumber where
  | finite (x : ℚ)
  | posInfinity
  | negInfinity
  | nan
deriving DecidableEq, Repr

/-- The comparison `a >= b` of two JavaScript numbers. -/
def JsNumber.ge : JsNumber → JsNumber → Bool
  | .nan, _ => false
  | _, .nan => false
  | .posInfinity, _ => true
  | _, .negInfinity => true
  | .negInfinity, _ => false
  | .finite _, .posInfinity => false
  | .finite a, .finite b => decide (b ≤ a)

/-- The requests of the message listener, by `msg.type`. -/
inductive Msg where
  | status
  | unlock (password : String)
  | lock
  | getCredentialsForOrigin (origin : String)
  | saveCredential (credential : Credential)
  | listCredentials
  | deleteCredential (id : String)
  | generatePassword (options : GenOptions)
  | setAutolock (ms : JsNumber)
  | unknown (type : String)

/-- The argument of `sendResponse`: `{ok: true, ...}` or `{ok: false, error}`. -/
inductive Response where
  | ok
  | okUnlocked (unlocked : Bool)
  | okCreds (creds : List Credential)
  | okPassword (password : String)
  | fail (error : String)
deriving DecidableEq, Repr

variable {cr : Crypto}

def loadMeta (s : State cr) : Option VaultMeta := s.localMeta

def saveMeta (m : VaultMeta) (s : State cr) : State cr := { s with localMeta := some m }

/-- Round to the nearest integer, a tie going to the even one. -/
def roundHalfEven (t : ℚ) : Int :=
  if t - ⌊t⌋ < 1 / 2 then ⌊t⌋
  else if 1 / 2 < t - ⌊t⌋ then ⌊t⌋ + 1
  else if ⌊t⌋ % 2 = 0 then ⌊t⌋ else ⌊t⌋ + 1

/-- The double nearest to `q` (53-bit significand, ties to even): what a division of
doubles returns for the exact quotient `q`. With `2 ^ e <= |q| < 2 ^ (e + 1)` the doubles
around `q` are the multiples of `2 ^ (e - 52)`. -/
def roundToDouble (q : ℚ) : ℚ :=
  if q = 0 then 0
  else roundHalfEven (q / (2 : ℚ) ^ (Int.log 2 |q| - 52)) * (2 : ℚ) ^ (Int.log 2 |q| - 52)

/-- `Math.round(y)`: the nearest integer, a tie going up. -/
def mathRound (y : ℚ) : Int := ⌊y + 1 / 2⌋

/-- `Math.max(1, Math.round((autolockMs || 5 * 60 * 1000) / 60000))`. -/
def autolockMinutes (autolockMs : ℚ) : Int :=
  max 1 (mathRound
    (roundToDouble ((if autolockMs = 0 then 5 * 60 * 1000 else autolockMs) / 60000)))

/-- `resetAutolockTimer()`: clear the `autolock` alarm and create it again. -/
def resetAutolockTimer (env : Env) (s : State cr) : State cr :=
  { s with unlockedAt := env.now, alarm := some (autolockMinutes s.autolockMs) }

/-- `lockVault()`. -/
def lockVault (s : State cr) : State cr :=
  { s with derivedKey := none, unlockedAt := 0, session := none }

/-- `ensureInit()`. -/
def ensureInit (env : Env) (s : State cr) : State cr :=
  match loadMeta s with
  | none =>
    saveMeta
      { kdf := "PBKDF2"
        iterations := 310000
        saltB64 := cr.bytesToBase64 env.saltBytes
        autolockMs := s.autolockMs
        createdAt := env.now
        updatedAt := env.now } s
  | some m => { s with autolockMs := if m.autolockMs = 0 then s.autolockMs else m.autolockMs }

/-- `deriveKeyFromMeta(password)`. -/
def deriveKeyFromMeta (password : String) (s : State cr) : Except String cr.Key :=
  match loadMeta s with
  | none => .error "Meta not initialized"
  | some m => .ok (cr.deriveKeyPBKDF2 password (cr.base64ToBytes m.saltB64) m.iterations)

/-- `tryRestoreKeyFromSession()`. -/
def tryRestoreKeyFromSession (env : Env) (s : State cr) : State cr :=
  match s.session with
  | none => s
  | some jwk =>
    match cr.importKey jwk with
    | none => s
    | some k => resetAutolockTimer env { s with derivedKey := some k }

/-- The line `if (!derivedKey) await tryRestoreKeyFromSession();`. -/
def restoreIfLocked (env : Env) (s : State cr) : State cr :=
  if s.derivedKey.isNone then tryRestoreKeyFromSession env s else s

/-- `getVaultJson()`. -/
def getVaultJson (env : Env) (s : State cr) : State cr × Except String Vault :=
  match s.vault with
  | none => (s, .ok { creds := [] })
  | some enc =>
    let s1 := restoreIfLocked env s
    match s1.derivedKey with
    | none => (s1, .error "Vault is locked")
    | some k =>
      match cr.decryptJSON enc k with
      | none => (s1, .error "OperationError")
      | some v => (s1, .ok v)

/-- `setVaultJson(json)`. -/
def setVaultJson (env : Env) (json : Vault) (s : State cr) : State cr × Except String Unit :=
  let s1 := restoreIfLocked env s
  match s1.derivedKey with
  | none => (s1, .error "Vault is locked")
  | some k => ({ s1 with vault := some (cr.encryptJSON json k env.iv) }, .ok ())

/-- `Array.prototype.findIndex`: the first index whose element satisfies `p`, else `-1`. -/
def findIndex {α : Type} (p : α → Bool) : List α → Int
  | [] => -1
  | x :: xs => if p x then 0 else (if findIndex p xs ≥ 0 then findIndex p xs + 1 else -1)

/-- The update of `vault.creds` in the `SAVE_CREDENTIAL` handler. -/
def saveCreds (creds : List Credential) (credential : Credential) : List Credential :=
  let idx := findIndex (fun c => decide (c.id = credential.id)) creds
  if idx ≥ 0 then creds.set idx.toNat credential else creds ++ [credential]

/-- The filter `c.id !== id` of the `DELETE_CREDENTIAL` handler. -/
def deleteCreds (creds : List Credential) (id : String) : List Credential :=
  creds.filter (fun c => decide (c.id ≠ id))

/-- The test `c.origins?.includes(origin)`, also `(c.origins || []).includes(origin)`. -/
def originsIncludes (origin : String) (c : Credential) : Bool :=
  match c.origins with
  | none => false
  | some os => os.contains origin

/-- The tail of the `UNLOCK` handler once the candidate key is accepted: keep the key,
arm the timer, export the key to the session store (a rejected export is ignored). -/
def finishUnlock (env : Env) (key : cr.Key) (s : State cr) : State cr × Response :=
  let s1 := resetAutolockTimer env { s with derivedKey := some key }
  match cr.exportKey key with
  | some jwk => ({ s1 with session := some jwk }, .ok)
  | none => (s1, .ok)

/-- The `UNLOCK` branch of the message listener. -/
def handleUnlock (env : Env) (password : String) (s : State cr) : State cr × Response :=
  let s1 := ensureInit env s
  match deriveKeyFromMeta password s1 with
  | .error e => (s1, .fail e)
  | .ok key =>
    match s1.vault with
    | some enc =>
      match cr.decryptJSON enc key with
      | none => (s1, .fail "Invalid master password")
      | some _ => finishUnlock env key s1
    | none =>
      finishUnlock env key { s1 with vault := some (cr.encryptJSON { creds := [] } key env.iv) }

/-- The `GET_CREDENTIALS_FOR_ORIGIN` branch. -/
def handleGetForOrigin (env : Env) (origin : String) (s : State cr) : State cr × Response :=
  let s1 := restoreIfLocked env s
  match s1.derivedKey with
  | none => (s1, .fail "Locked")
  | some _ =>
    match getVaultJson env (resetAutolockTimer env s1) with
    | (s2, .error e) => (s2, .fail e)
    | (s2, .ok vault) => (s2, .okCreds (vault.creds.filter (originsIncludes origin)))

/-- The `SAVE_CREDENTIAL` branch. -/
def handleSave (env : Env) (credential : Credential) (s : State cr) : State cr × Response :=
  let s1 := restoreIfLocked env s
  match s1.derivedKey with
  | none => (s1, .fail "Locked")
  | some _ =>
    match getVaultJson env (resetAutolockTimer env s1) with
    | (s2, .error e) => (s2, .fail e)
    | (s2, .ok vault) =>
      match setVaultJson env { creds := saveCreds vault.creds credential } s2 with
      | (s3, .error e) => (s3, .fail e)
      | (s3, .ok _) => (s3, .ok)

/-- The `LIST_CREDENTIALS` branch. -/
def handleList (env : Env) (s : State cr) : State cr × Response :=
  let s1 := restoreIfLocked env s
  match s1.derivedKey with
  | none => (s1, .fail "Locked")
  | some _ =>
    match getVaultJson env (resetAutolockTimer env s1) with
    | (s2, .error e) => (s2, .fail e)
    | (s2, .ok vault) => (s2, .okCreds vault.creds)

/-- The `DELETE_CREDENTIAL` branch. -/
def handleDelete (env : Env) (id : String) (s : State cr) : State cr × Response :=
  let s1 := restoreIfLocked env s
  match s1.derivedKey with
  | none => (s1, .fail "Locked")
  | some _ =>
    match getVaultJson env (resetAutolockTimer env s1) with
    | (s2, .error e) => (s2, .fail e)
    | (s2, .ok vault) =>
      match setVaultJson env { creds := deleteCreds vault.creds id } s2 with
      | (s3, .error e) => (s3, .fail e)
      | (s3, .ok _) => (s3, .ok)

/-- The `SET_AUTOLOCK` branch: `!Number.isFinite(ms)` holds for `Infinity`, `-Infinity`
and `NaN`. A missing metadata record makes `meta.autolockMs = ms` throw a `TypeError`,
which the listener reports as a failure. -/
def handleSetAutolock (env : Env) (ms : JsNumber) (s : State cr) : State cr × Response :=
  match ms with
  | .finite x =>
    if x < 60 * 1000 then (s, .fail "Invalid autolock value; must be >= 1 minute")
    else
      match loadMeta s with
      | none => (s, .fail "Cannot set properties of null (setting 'autolockMs')")
      | some m =>
        let s1 := saveMeta { m with autolockMs := x } s
        let s2 := { s1 with autolockMs := x }
        if s2.derivedKey.isSome then (resetAutolockTimer env s2, .ok) else (s2, .ok)
  | _ => (s, .fail "Invalid autolock value; must be >= 1 minute")

/-- The listener of `chrome.runtime.onMessage`: the new state and the response sent. -/
def onMessage (env : Env) (msg : Msg) (s : State cr) : State cr × Response :=
  match msg with
  | .status =>
    let s1 := restoreIfLocked env s
    (s1, .okUnlocked s1.derivedKey.isSome)
  | .unlock password => handleUnlock env password s
  | .lock => (lockVault s, .ok)
  | .getCredentialsForOrigin origin => handleGetForOrigin env origin s
  | .saveCredential credential => handleSave env credential s
  | .listCredentials => handleList env s
  | .deleteCredential id => handleDelete env id s
  | .generatePassword options => (s, .okPassword (String.mk (generatePassword options env.rnd)))
  | .setAutolock ms => handleSetAutolock env ms s
  | .unknown _ => (s, .fail "Unknown message")

/-- The function `getCredsForOrigin(origin)` used by the context-menu paste actions. -/
def getCredsForOrigin (env : Env) (origin : String) (s : State cr) :
    State cr × Except String (List Credential) :=
  let s1 := restoreIfLocked env s
  match s1.derivedKey with
  | none => (s1, .error "Locked")
  | some _ =>
    match getVaultJson env s1 with
    | (s2, .error e) => (s2, .error e)
    | (s2, .ok vault) => (s2, .ok (vault.creds.filter (originsIncludes origin)))

/-- The listener of `chrome.alarms.onAlarm`. -/
def onAlarm (name : String) (s : State cr) : State cr :=
  if name = "autolock" then (if s.derivedKey.isSome then lockVault s else s) else s

/-- The armed `autolock` alarm fires: it is a one-shot alarm (created with
`delayInMinutes` only), so it is no longer armed when its listener runs. -/
def alarmFires (s : State cr) : State cr :=
  match s.alarm with
  | none => s
  | some _ => onAlarm "autolock" { s with alarm := none }

/-- The host tears the worker down and starts it again: the module variables get their
initial values, the three stores and the alarm are kept. -/
def restart (s : State cr) : State cr :=
  { s with derivedKey := none, unlockedAt := 0, autolockMs := 5 * 60 * 1000 }

/-- The state of a fresh installation before anything ran. -/
def initialState (cr : Crypto) : State cr :=
  { derivedKey := none, unlockedAt := 0, autolockMs := 5 * 60 * 1000,
    localMeta := none, vault := none, session := none, alarm := none }

/-- The steps of the session state machine: a request, the alarm firing, a restart of
the worker, and the `chrome.runtime.onInstalled` listener (which calls `ensureInit`). -/
inductive Event where
  | message (env : Env) (msg : Msg)
  | alarmFired
  | restarted
  | installed (env : Env)

/-- One step of the session state machine, with the response when the step is a request. -/
def step (e : Event) (s : State cr) : State cr × Option Response :=
  match e with
  | .message env msg => ((onMessage env msg s).1, some (onMessage env msg s).2)
  | .alarmFired => (alarmFires s, none)
  | .restarted => (restart s, none)
  | .installed env => (ensureInit env s, none)

/-- Run a list of steps from a state; the responses of the requests are collected in order. -/
def run : List Event → State cr → State cr × List Response
  | [], s => (s, [])
  | e :: es, s =>
    let r := step e s
    let rs := run es r.1
    (rs.1, r.2.toList ++ rs.2)

/-! ## An ideal instance of the primitives

Used to evaluate the handlers on concrete inputs: a key is the triple it was derived
from, a record remembers the key and the nonce it was made with, and decryption
succeeds exactly under that key. -/

/-- Keys of the ideal instance. -/
structure IdealKey where
  password : String
  salt : List Nat
  iterations : Nat
deriving DecidableEq, Repr

/-- Records of the ideal instance. -/
structure IdealEnc where
  key : IdealKey
  iv : List Nat
  doc : Vault
deriving DecidableEq, Repr

/-- The ideal instance of the primitives. -/
def idealCrypto : Crypto where
  Key := IdealKey
  Enc := IdealEnc
  Jwk := IdealKey
  bytesToBase64 := fun bs => String.mk (bs.map Char.ofNat)
  base64ToBytes := fun str => str.toList.map Char.toNat
  deriveKeyPBKDF2 := fun p salt it => { password := p, salt := salt, iterations := it }
  encryptJSON := fun v k iv => { key := k, iv := iv, doc := v }
  decryptJSON := fun e k => if e.key = k then some e.doc else none
  exportKey := fun k => some k
  importKey := fun j => some j

/-- A fixed environment for concrete runs. -/
def env0 : Env := { now := 1000, saltBytes := [1, 2, 3], iv := [7], rnd := fun k => k }

/-! ## Predicates and concrete data used by the statements -/

/-- The vault is unlocked with key `k` (held in memory, or restorable from the session
store) and its decrypted credential list is `L`; a missing record reads as the empty list. -/
def UnlockedWith (env : Env) (s : State cr) (k : cr.Key) (L : List Credential) : Prop :=
  (restoreIfLocked env s).derivedKey = some k ∧
    match s.vault with
    | none => L = []
    | some enc => cr.decryptJSON enc k = some { creds := L }

/-- Concrete data for evaluating the handlers. -/
def keyA : IdealKey := { password := "pw", salt := [1, 2, 3], iterations := 310000 }

def credA : Credential :=
  { id := "a", origins := some ["https://a.example"], username := "alice",
    password := "p1", notes := "" }

def credB : Credential :=
  { id := "b", origins := some ["https://b.example"], username := "alice",
    password := "p2", notes := "" }

def metaA : VaultMeta :=
  { kdf := "PBKDF2", iterations := 310000, saltB64 := idealCrypto.bytesToBase64 [1, 2, 3],
    autolockMs := 300000, createdAt := 1000, updatedAt := 1000 }

/-- An unlocked state of the ideal instance holding `credA` and `credB`. -/
def stateAB : State idealCrypto :=
  { derivedKey := some keyA, unlockedAt := 1000, autolockMs := 300000,
    localMeta := some metaA,
    vault := some { key := keyA, iv := [7], doc := { creds := [credA, credB] } },
    session := some keyA, alarm := some 5 }

/-- Whether a response is a success (`ok: true`). -/
def Response.isOk : Response → Bool
  | .fail _ => false
  | _ => true

/-- The four requests that read or change the credential list. -/
def crudRequests (o id : String) (c : Credential) : List Msg :=
  [.listCredentials, .getCredentialsForOrigin o, .saveCredential c, .deleteCredential id]

/-- A locked state of the ideal instance: the record of `stateAB`, no key anywhere. -/
def stateLocked : State idealCrypto :=
  { stateAB with derivedKey := none, unlockedAt := 0, session := none, alarm := none }

/-- The state after the first `UNLOCK` of a fresh installation of the ideal instance. -/
def stateFresh : State idealCrypto :=
  (onMessage env0 (.unlock "pw") (initialState idealCrypto)).1

/-! ## Predicates for the invariants -/

/-- The credentials of a list have pairwise distinct ids. -/
def DistinctIds (L : List Credential) : Prop := L.Pairwise (fun a b => a.id ≠ b.id)

/-- The configuration invariant of reachable states: the in-memory duration and the
stored metadata respect the floors of the data model. -/
def ConfigOk (s : State cr) : Prop :=
  60000 ≤ s.autolockMs ∧
    ∀ m, s.localMeta = some m → 100000 ≤ m.iterations ∧ 60000 ≤ m.autolockMs

/-- The state `t` has the stored metadata and the in-memory duration of `s`. -/
def SameConfig (s t : State cr) : Prop :=
  t.localMeta = s.localMeta ∧ t.autolockMs = s.autolockMs

/-- Whatever metadata `s` stores, `t` stores metadata with the same salt and iterations. -/
def KdfKept (s t : State cr) : Prop :=
  ∀ m, s.localMeta = some m →
    ∃ m2, t.localMeta = some m2 ∧ m2.saltB64 = m.saltB64 ∧ m2.iterations = m.iterations

/-! ## escapeHtml (content.js, popup.js) -/

/-- The replacement callback of `escapeHtml`: the entity for each of the five characters
matched by the pattern (`Char.ofNat 34` is the double quote, `Char.ofNat 39` the
apostrophe); any other character is not matched and stays. -/
def escapeChar (ch : Char) : List Char :=
  if ch = '&' then "&amp;".toList
  else if ch = '<' then "&lt;".toList
  else if ch = '>' then "&gt;".toList
  else if ch = Char.ofNat 34 then "&quot;".toList
  else if ch = Char.ofNat 39 then "&#39;".toList
  else [ch]

/-- `escapeHtml(s)` of `content.js` and `popup.js`: a global replace over the string. -/
def escapeHtml (s : String) : String := String.mk (s.toList.flatMap escapeChar)

/-- The five entities that `escapeHtml` produces, each with the character it stands for. -/
def entities : List (List Char × Char) :=
  [("&amp;".toList, '&'), ("&lt;".toList, '<'), ("&gt;".toList, '>'),
   ("&quot;".toList, Char.ofNat 34), ("&#39;".toList, Char.ofNat 39)]

/-- The entity at the head of a list of characters, if there is one: the character it
stands for and the number of characters that follow its `&`. -/
def entityAt (l : List Char) : Option (Char × Nat) :=
  (entities.find? (fun e => e.1.isPrefixOf l)).map (fun e => (e.2, e.1.length - 1))

/-- Scan for `unescapeHtml`: `skip` counts the characters still to pass over because
they belong to an entity already replaced. -/
def unescapeScan : Nat → List Char → List Char
  | _, [] => []
  | skip + 1, _ :: cs => unescapeScan skip cs
  | 0, c :: cs =>
    match entityAt (c :: cs) with
    | some (ch, n) => ch :: unescapeScan n cs
    | none => c :: unescapeScan 0 cs

/-- The inverse that the specification names (not a function of the source): replace,
from left to right, each of the five entities by its character. -/
def unescapeHtml (s : String) : String := String.mk (unescapeScan 0 s.toList)

/-! ## Predicates for the password generator -/

/-- The length that `generatePassword` computes from `options.length`. -/
def passwordLength (options : GenOptions) : Int :=
  max 8 (min 128 (match options.length with
    | none => 16
    | some n => if n = 0 then 16 else n))

/-- A printable ASCII character that is neither a letter nor a digit. -/
def isSymbolCh (ch : Char) : Bool :=
  decide (33 ≤ ch.toNat) && decide (ch.toNat ≤ 126) &&
    !(isDigitCh ch || isUpperCh ch || isLowerCh ch)

/-- What the claim asks of a generated password `pwd` for the given options. -/
def HasSelectedClasses (options : GenOptions) (pwd : List Char) : Prop :=
  (pwd.length : Int) = passwordLength options ∧
  (options.lower ≠ some false → ∃ ch ∈ pwd, isLowerCh ch = true) ∧
  (options.upper ≠ some false → ∃ ch ∈ pwd, isUpperCh ch = true) ∧
  (options.digits ≠ some false → ∃ ch ∈ pwd, isDigitCh ch = true) ∧
  (options.symbols ≠ some false → ∃ ch ∈ pwd, isSymbolCh ch = true)

/-! ## src/extension/content.js -/

/-- An `input` element as `content.js` reads it: the DOM properties it looks at, the
result of `isVisible`, the enclosing form (`closest('form')`, by number) and the two
marks the script keeps in `dataset` (`passvaultEdited`, `passvaultApplied`). -/
structure InputEl where
  type : String
  name : String
  id : String
  placeholder : String
  autocomplete : String
  value : String
  visible : Bool
  disabled : Bool
  readOnly : Bool
  form : Option Nat
  edited : Bool
  applied : Bool
deriving DecidableEq, Repr

/-- The part of the document that `content.js` reads and writes: the `input` elements in
document order (an element is identified by its position), the forms that contain a
submit-like control, and the credential pickers rendered so far (the rows of each). -/
structure Page where
  inputs : List InputEl
  submitForms : List Nat
  pickers : List (List Credential)
deriving DecidableEq, Repr

/-- The result of `findFields()`: `{ form, user, pw }`, elements given by position. -/
structure Fields where
  form : Option Nat
  user : Option Nat
  pw : Nat
deriving DecidableEq, Repr

/-- `String.prototype.toLowerCase` on the ASCII letters (the keywords and hints the
result is compared with are ASCII, and no other letter lowers to one of their letters). -/
def toLowerCase (s : String) : String := String.mk (s.toList.map Char.toLower)

/-- Whether the characters `h` stand at the head of `s`. -/
def startsWith : List Char → List Char → Bool
  | _, [] => true
  | [], _ :: _ => false
  | c :: cs, h :: hs => c == h && startsWith cs hs

/-- `String.prototype.includes` on lists of characters. -/
def includesChars : List Char → List Char → Bool
  | [], h => h.isEmpty
  | c :: cs, h => startsWith (c :: cs) h || includesChars cs h

/-- The test `s.includes(h)`. -/
def includes (s h : String) : Bool := includesChars s.toList h.toList

def userHints : List String := ["user", "email", "login", "id", "mail", "account", "phone"]

/-- The first test of the loop: `['text', 'email', 'username'].includes(t)`. -/
def typeMatches (el : InputEl) : Bool :=
  ["text", "email", "username"].contains (toLowerCase (if el.type = "" then "text" else el.type))

/-- The second test of the loop: `['username', 'email'].includes(ac)`. -/
def autocompleteMatches (el : InputEl) : Bool :=
  ["username", "email"].contains (toLowerCase el.autocomplete)

/-- The third test of the loop: a naming hint occurs in the name, id or placeholder. -/
def hintMatches (el : InputEl) : Bool :=
  userHints.any (fun h =>
    includes (toLowerCase el.name) h || includes (toLowerCase el.id) h ||
      includes (toLowerCase el.placeholder) h)

/-- `user || el`. -/
def orEl (user : Option Nat) (j : Nat) : Option Nat :=
  match user with
  | some u => some u
  | none => some j

/-- The body of the loop `for (const el of inputs)` in `findFields`. -/
def userStep (pw : Nat) (user : Option Nat) (p : Nat × InputEl) : Option Nat :=
  if p.1 = pw then user
  else
    let u1 := if typeMatches p.2 then orEl user p.1 else user
    let u2 := if autocompleteMatches p.2 then orEl u1 p.1 else u1
    if hintMatches p.2 then orEl u2 p.1 else u2

/-- The loop of `findFields` over the inputs of the scope (each with its position). -/
def findUser (scope : List (Nat × InputEl)) (pw : Nat) : Option Nat :=
  scope.foldl (userStep pw) none

/-- The inputs of `pw.closest('form') || document`, each with its position: those of the
form of the password field, or every input of the document when it has no form. -/
def scopeInputs (pg : Page) (form : Option Nat) : List (Nat × InputEl) :=
  match form with
  | some f => pg.inputs.enum.filter (fun p => decide (p.2.form = some f))
  | none => pg.inputs.enum

/-- `findFields()`. -/
def findFields (pg : Page) : Option Fields :=
  let pwAll := pg.inputs.enum.filter (fun p =>
    toLowerCase p.2.type == "password" && p.2.visible && !p.2.disabled && !p.2.readOnly)
  match pwAll with
  | [] => none
  | first :: _ =>
    let pw := match pwAll.find? (fun p =>
        match p.2.form with
        | some f => pg.submitForms.contains f
        | none => false) with
      | some cand => cand
      | none => first
    some { form := pw.2.form, user := findUser (scopeInputs pg pw.2.form) pw.1, pw := pw.1 }

/-- The identifier field chosen by tier priority, in the words of the specification (not
a function of the source): the first input of the scope, other than the password field,
whose type matches, else the first whose autocomplete hint matches, else the first with
a naming hint. -/
def tierPriorityUser (scope : List (Nat × InputEl)) (pw : Nat) : Option Nat :=
  let others := scope.filter (fun p => decide (p.1 ≠ pw))
  match others.find? (fun p => typeMatches p.2) with
  | some p => some p.1
  | none =>
    match others.find? (fun p => autocompleteMatches p.2) with
    | some p => some p.1
    | none => (others.find? (fun p => hintMatches p.2)).map (fun p => p.1)

/-- Apply `f` to the input at position `i`. -/
def updateInput (pg : Page) (i : Nat) (f : InputEl → InputEl) : Page :=
  match pg.inputs[i]? with
  | none => pg
  | some el => { pg with inputs := pg.inputs.set i (f el) }

/-- `setValue(el, value)`: the native setter, then an `input` and a `change` event. The
script's own capturing `input` listener on the document runs on that `input` event and
marks the element as edited. -/
def setValue (pg : Page) (i : Nat) (value : String) : Page :=
  updateInput pg i (fun el => { el with value := value, edited := true })

/-- `applyCred(cred)`. -/
def applyCred (cred : Credential) (pg : Page) : Page :=
  match findFields pg with
  | none => pg
  | some fields =>
    let pg1 := match fields.user with
      | some u =>
        if cred.username ≠ "" then
          updateInput (setValue pg u cred.username) u (fun el => { el with applied := true })
        else pg
      | none => pg
    updateInput (setValue pg1 fields.pw cred.password) fields.pw
      (fun el => { el with applied := true })

/-- `renderPicker(creds, target)`: one row for each of the first six credentials. -/
def renderPicker (creds : List Credential) (pg : Page) : Page :=
  { pg with pickers := pg.pickers ++ [creds.take 6] }

/-- The mark `dataset.passvaultEdited === '1'` of the input at position `i`. -/
def isEdited (pg : Page) (i : Nat) : Bool :=
  match pg.inputs[i]? with
  | some el => el.edited
  | none => false

/-- The test `pw.dataset.passvaultApplied === '1' && pw.value` of `maybeAutofill`. -/
def appliedWithValue (pg : Page) (i : Nat) : Bool :=
  match pg.inputs[i]? with
  | some el => el.applied && el.value != ""
  | none => false

/-- What one call of `maybeAutofill` leaves: the page, the state of the background
worker, and whether credentials were requested from it. -/
structure AutofillResult (cr : Crypto) where
  page : Page
  background : State cr
  requested : Bool

/-- `maybeAutofill(showPicker)` on the page of origin `origin`; `fetchCreds()` is the
`GET_CREDENTIALS_FOR_ORIGIN` request to the background worker. -/
def maybeAutofill (env : Env) (origin : String) (showPicker : Bool) (pg : Page)
    (bg : State cr) : AutofillResult cr :=
  match findFields pg with
  | none => { page := pg, background := bg, requested := false }
  | some fields =>
    if (match fields.user with
        | some u => isEdited pg u
        | none => false) || isEdited pg fields.pw then
      { page := pg, background := bg, requested := false }
    else if appliedWithValue pg fields.pw then
      { page := pg, background := bg, requested := false }
    else
      match onMessage env (.getCredentialsForOrigin origin) bg with
      | (bg1, .okCreds creds) =>
        match creds with
        | [] => { page := pg, background := bg1, requested := true }
        | [c] => { page := applyCred c pg, background := bg1, requested := true }
        | _ :: _ :: _ =>
          if showPicker then { page := renderPicker creds pg, background := bg1, requested := true }
          else { page := pg, background := bg1, requested := true }
      | (bg1, _) => { page := pg, background := bg1, requested := true }

/-- A vault state of the ideal instance with two credentials for the origin of `credA`. -/
def stateTwo : State idealCrypto :=
  { stateAB with
    vault := some { key := keyA, iv := [7],
                    doc := { creds := [credA, { credB with origins := some ["https://a.example"] }] } } }

/-- A plain input element, to be refined field by field. -/
def blankInput : InputEl :=
  { type := "text", name := "", id := "", placeholder := "", autocomplete := "", value := "",
    visible := true, disabled := false, readOnly := false, form := none,
    edited := false, applied := false }

/-- A page whose first input is a telephone field named `phone`, followed by a text
field and a password field, all outside any form. -/
def pagePhone : Page :=
  { inputs := [{ blankInput with type := "tel", name := "phone" },
               { blankInput with type := "text", name := "q" },
               { blankInput with type := "password", name := "pw" }],
    submitForms := [], pickers := [] }

/-- A login page: a text field and a password field in form `0`, which has a submit button. -/
def pageLogin : Page :=
  { inputs := [{ blankInput with type := "text", name := "login", form := some 0 },
               { blankInput with type := "password", name := "pw", form := some 0 }],
    submitForms := [0], pickers := [] }

/-- The three tests of the loop of `findFields`, taken together. -/
def anyTestMatches (el : InputEl) : Bool :=
  typeMatches el || autocompleteMatches el || hintMatches el

/-! ## Auxiliary facts -/

theorem roundHalfEven_bounds (t : ℚ) :
    ⌊t⌋ ≤ roundHalfEven t ∧ (roundHalfEven t : ℚ) ≤ t + 1 / 2 := by
  have h1 : (⌊t⌋ : ℚ) ≤ t := Int.floor_le t
  unfold roundHalfEven
  split
  · exact ⟨le_refl _, by linarith⟩
  · split
    · refine ⟨by omega, ?_⟩
      push_cast
      linarith
    · rename_i ha hb
      have heq : t - ⌊t⌋ = 1 / 2 := le_antisymm (not_lt.mp hb) (not_lt.mp ha)
      split
      · exact ⟨le_refl _, by linarith⟩
      · refine ⟨by omega, ?_⟩
        push_cast
        linarith

theorem mathRound_roundToDouble_div (n : ℤ) (h1 : 60000 ≤ n) (h2 : n ≤ 9007199254740991) :
    mathRound (roundToDouble ((n : ℚ) / 60000)) = (n + 30000) / 60000 := by
  have hn1 : (60000 : ℚ) ≤ (n : ℚ) := by exact_mod_cast h1
  have hn2 : (n : ℚ) ≤ 9007199254740991 := by exact_mod_cast h2
  have hqpos : (0 : ℚ) < (n : ℚ) / 60000 := by positivity
  have hqne : (n : ℚ) / 60000 ≠ 0 := ne_of_gt hqpos
  have habs : |(n : ℚ) / 60000| = (n : ℚ) / 60000 := abs_of_pos hqpos
  have hlo : ((2 : ℕ) : ℚ) ^ Int.log 2 ((n : ℚ) / 60000) ≤ (n : ℚ) / 60000 :=
    Int.zpow_log_le_self (by norm_num) hqpos
  have hq38 : (n : ℚ) / 60000 < ((2 : ℕ) : ℚ) ^ (38 : ℤ) := by
    rw [div_lt_iff₀ (by norm_num)]
    norm_num
    linarith
  have he : Int.log 2 ((n : ℚ) / 60000) < 38 :=
    (zpow_lt_zpow_iff_right₀ (by norm_num : (1 : ℚ) < ((2 : ℕ) : ℚ))).mp (lt_of_le_of_lt hlo hq38)
  obtain ⟨k, hk⟩ : ∃ k : ℕ, 52 - Int.log 2 ((n : ℚ) / 60000) = (k : ℤ) + 15 :=
    ⟨(52 - Int.log 2 ((n : ℚ) / 60000) - 15).toNat, by omega⟩
  have hu : (2 : ℚ) ^ (Int.log 2 ((n : ℚ) / 60000) - 52) = ((2 : ℚ) ^ (k + 15))⁻¹ := by
    rw [show Int.log 2 ((n : ℚ) / 60000) - 52 = -(((k + 15 : ℕ)) : ℤ) by push_cast; omega,
      zpow_neg, zpow_natCast]
  unfold mathRound roundToDouble
  rw [if_neg hqne, habs, hu]
  have hP1 : (1 : ℚ) ≤ (2 : ℚ) ^ k := one_le_pow₀ (by norm_num)
  have hPe : (2 : ℚ) ^ (k + 15) = 32768 * (2 : ℚ) ^ k := by rw [pow_add]; norm_num; ring
  have hPpos : (0 : ℚ) < (2 : ℚ) ^ (k + 15) := by positivity
  rw [div_inv_eq_mul]
  obtain ⟨hm1, hm2⟩ := roundHalfEven_bounds ((n : ℚ) / 60000 * (2 : ℚ) ^ (k + 15))
  generalize roundHalfEven ((n : ℚ) / 60000 * (2 : ℚ) ^ (k + 15)) = m at hm1 hm2
  -- the exact rounding
  have hj1 : 60000 * ((n + 30000) / 60000) ≤ n + 30000 := by omega
  have hj2 : n + 30000 < 60000 * ((n + 30000) / 60000) + 60000 := by omega
  generalize (n + 30000) / 60000 = j at hj1 hj2
  have hj1q : (60000 : ℚ) * j ≤ n + 30000 := by exact_mod_cast hj1
  have hj2q : (n : ℚ) + 30000 ≤ 60000 * j + 59999 := by
    have : n + 30000 ≤ 60000 * j + 59999 := by omega
    exact_mod_cast this
  -- lower bound: an integer below the scaled quotient
  have hz : (((2 * j - 1) * 2 ^ (k + 14) : ℤ) : ℚ) ≤ (n : ℚ) / 60000 * (2 : ℚ) ^ (k + 15) := by
    push_cast
    rw [show (2 : ℚ) ^ (k + 15) = 2 * (2 : ℚ) ^ (k + 14) by rw [pow_succ]; ring]
    have hpos : (0 : ℚ) < (2 : ℚ) ^ (k + 14) := by positivity
    have : (2 * (j : ℚ) - 1) ≤ (n : ℚ) / 60000 * 2 := by
      rw [div_mul_eq_mul_div, le_div_iff₀ (by norm_num)]
      linarith
    calc (2 * (j : ℚ) - 1) * 2 ^ (k + 14) ≤ ((n : ℚ) / 60000 * 2) * 2 ^ (k + 14) :=
          mul_le_mul_of_nonneg_right this (le_of_lt hpos)
      _ = (n : ℚ) / 60000 * (2 * 2 ^ (k + 14)) := by ring
  have hzm : (2 * j - 1) * 2 ^ (k + 14) ≤ m := le_trans (Int.le_floor.mpr hz) hm1
  have hzmq : (2 * (j : ℚ) - 1) * 2 ^ (k + 14) ≤ (m : ℚ) := by exact_mod_cast hzm
  rw [Int.floor_eq_iff]
  have hP14 : (2 : ℚ) ^ (k + 15) = 2 * (2 : ℚ) ^ (k + 14) := by rw [pow_succ]; ring
  have hpos14 : (0 : ℚ) < (2 : ℚ) ^ (k + 14) := by positivity
  constructor
  · -- j ≤ m / P + 1/2
    have : (j : ℚ) - 1 / 2 ≤ (m : ℚ) * ((2 : ℚ) ^ (k + 15))⁻¹ := by
      rw [← div_eq_mul_inv, le_div_iff₀ hPpos, hP14]
      nlinarith
    linarith
  · -- m / P + 1/2 < j + 1
    have hq : (n : ℚ) / 60000 ≤ (j : ℚ) + 1 / 2 - 1 / 60000 := by
      rw [div_le_iff₀ (by norm_num)]
      linarith
    have : (m : ℚ) * ((2 : ℚ) ^ (k + 15))⁻¹ < (j : ℚ) + 1 / 2 := by
      rw [← div_eq_mul_inv, div_lt_iff₀ hPpos]
      have h3 : (n : ℚ) / 60000 * (2 : ℚ) ^ (k + 15)
          ≤ ((j : ℚ) + 1 / 2 - 1 / 60000) * (2 : ℚ) ^ (k + 15) :=
        mul_le_mul_of_nonneg_right hq (le_of_lt hPpos)
      have h4 : (1 : ℚ) / 60000 * (2 : ℚ) ^ (k + 15) > 1 / 2 := by
        rw [hPe]
        nlinarith
      nlinarith
    linarith


theorem autolockMinutes_safe (n : ℤ) (h1 : 60000 ≤ n) (h2 : n ≤ 9007199254740991) :
    autolockMinutes (n : ℚ) = (n + 30000) / 60000 := by
  have hne : (n : ℚ) ≠ 0 := by
    have : (60000 : ℚ) ≤ (n : ℚ) := by exact_mod_cast h1
    intro h0; rw [h0] at this; norm_num at this
  unfold autolockMinutes
  rw [if_neg hne, mathRound_roundToDouble_div n h1 h2]
  exact max_eq_right (by omega)

theorem autolockMinutes_default : autolockMinutes (5 * 60 * 1000) = 5 := by
  have h := autolockMinutes_safe 300000 (by norm_num) (by norm_num)
  norm_num at h
  norm_num
  exact h

theorem autolockMinutes_90000 : autolockMinutes 90000 = 2 := by
  have h := autolockMinutes_safe 90000 (by norm_num) (by norm_num)
  norm_num at h
  exact h

theorem log_of_bounds (q : ℚ) (e : ℤ) (h1 : (2 : ℚ) ^ e ≤ q) (h2 : q < (2 : ℚ) ^ (e + 1)) :
    Int.log 2 q = e := by
  have hq : 0 < q := lt_of_lt_of_le (by positivity) h1
  have hlo : ((2 : ℕ) : ℚ) ^ Int.log 2 q ≤ q := Int.zpow_log_le_self (by norm_num) hq
  have hhi : q < ((2 : ℕ) : ℚ) ^ (Int.log 2 q + 1) := Int.lt_zpow_succ_log_self (by norm_num) q
  have a : Int.log 2 q < e + 1 :=
    (zpow_lt_zpow_iff_right₀ (by norm_num : (1 : ℚ) < ((2 : ℕ) : ℚ))).mp
      (lt_of_le_of_lt hlo (by exact_mod_cast h2))
  have b : e < Int.log 2 q + 1 :=
    (zpow_lt_zpow_iff_right₀ (by norm_num : (1 : ℚ) < ((2 : ℕ) : ℚ))).mp
      (lt_of_le_of_lt (by exact_mod_cast h1) hhi)
  omega

theorem roundHalfEven_up (t : ℚ) (z : ℤ) (h1 : (z : ℚ) + 1 / 2 < t) (h2 : t < (z : ℚ) + 1) :
    roundHalfEven t = z + 1 := by
  have hf : ⌊t⌋ = z := Int.floor_eq_iff.mpr ⟨by linarith, h2⟩
  unfold roundHalfEven
  rw [hf]
  have : ¬ (t - (z : ℚ) < 1 / 2) := by linarith
  rw [if_neg this, if_pos (by linarith)]

theorem autolockMinutes_large : autolockMinutes 270000000000029984 = 4500000000001 := by
  have hlog : Int.log 2 |(270000000000029984 : ℚ) / 60000| = 42 := by
    rw [abs_of_pos (by norm_num)]
    exact log_of_bounds _ 42 (by norm_num) (by norm_num)
  have hr : roundHalfEven ((270000000000029984 : ℚ) / 60000 / (2 : ℚ) ^ ((42 : ℤ) - 52))
      = 4608000000000512 :=
    roundHalfEven_up _ 4608000000000511 (by norm_num) (by norm_num)
  unfold autolockMinutes mathRound roundToDouble
  rw [if_neg (by norm_num), if_neg (by norm_num), hlog, hr]
  norm_num

theorem restoreIfLocked_of_key (env : Env) (s : State cr) (k : cr.Key)
    (h : s.derivedKey = some k) : restoreIfLocked env s = s := by
  simp [restoreIfLocked, h]

theorem restoreIfLocked_vault (env : Env) (s : State cr) :
    (restoreIfLocked env s).vault = s.vault := by
  unfold restoreIfLocked tryRestoreKeyFromSession resetAutolockTimer
  split
  · split
    · rfl
    · split <;> rfl
  · rfl

theorem getVaultJson_unlocked (env : Env) (s : State cr) (k : cr.Key) (L : List Credential)
    (hk : s.derivedKey = some k)
    (hv : match s.vault with
      | none => L = []
      | some enc => cr.decryptJSON enc k = some { creds := L }) :
    getVaultJson env s = (s, .ok { creds := L }) := by
  unfold getVaultJson
  cases hvault : s.vault with
  | none => simp [hvault] at hv; simp [hv]
  | some enc =>
    simp only [hvault] at hv
    simp [restoreIfLocked_of_key env s k hk, hk, hv]

theorem setVaultJson_unlocked (env : Env) (s : State cr) (k : cr.Key) (json : Vault)
    (hk : s.derivedKey = some k) :
    setVaultJson env json s = ({ s with vault := some (cr.encryptJSON json k env.iv) }, .ok ()) := by
  simp [setVaultJson, restoreIfLocked_of_key env s k hk, hk]

theorem handleSave_unlocked (env : Env) (s : State cr) (k : cr.Key) (L : List Credential)
    (c : Credential) (h : UnlockedWith env s k L) :
    handleSave env c s =
      ({ resetAutolockTimer env (restoreIfLocked env s) with
          vault := some (cr.encryptJSON { creds := saveCreds L c } k env.iv) }, .ok) := by
  obtain ⟨hk, hv⟩ := h
  have hk2 : (resetAutolockTimer env (restoreIfLocked env s)).derivedKey = some k := hk
  have hv2 : match (resetAutolockTimer env (restoreIfLocked env s)).vault with
      | none => L = []
      | some enc => cr.decryptJSON enc k = some { creds := L } := by
    have : (resetAutolockTimer env (restoreIfLocked env s)).vault = s.vault :=
      restoreIfLocked_vault env s
    rw [this]; exact hv
  unfold handleSave
  simp only [hk, getVaultJson_unlocked env _ k L hk2 hv2, setVaultJson_unlocked env _ k _ hk2]

theorem findIndex_ge {α : Type} (p : α → Bool) (l : List α) : -1 ≤ findIndex p l := by
  induction l with
  | nil => simp [findIndex]
  | cons x xs ih =>
    unfold findIndex
    split
    · omega
    · split <;> omega

theorem findIndex_absent {α : Type} (p : α → Bool) (l : List α)
    (h : ∀ x ∈ l, p x = false) : findIndex p l = -1 := by
  induction l with
  | nil => rfl
  | cons x xs ih =>
    have hx : p x = false := h x (List.mem_cons_self _ _)
    have hxs : findIndex p xs = -1 := ih (fun y hy => h y (List.mem_cons_of_mem _ hy))
    simp [findIndex, hx, hxs]

theorem findIndex_first {α : Type} (p : α → Bool) (l : List α) (i : Nat) (hi : i < l.length)
    (hp : p (l.get ⟨i, hi⟩) = true)
    (hfirst : ∀ j (hj : j < i), p (l.get ⟨j, Nat.lt_trans hj hi⟩) = false) :
    findIndex p l = (i : Int) := by
  induction l generalizing i with
  | nil => simp at hi
  | cons x xs ih =>
    cases i with
    | zero =>
      have : p x = true := by simpa using hp
      simp [findIndex, this]
    | succ n =>
      have hx : p x = false := by simpa using hfirst 0 (Nat.succ_pos n)
      have hn : n < xs.length := by simpa using hi
      have hrec : findIndex p xs = (n : Int) := by
        apply ih n hn
        · simpa using hp
        · intro j hj
          have := hfirst (j + 1) (Nat.succ_lt_succ hj)
          simpa using this
      simp only [findIndex, hx, hrec]
      simp

theorem saveCreds_absent (L : List Credential) (c : Credential)
    (h : ∀ e ∈ L, e.id ≠ c.id) : saveCreds L c = L ++ [c] := by
  have : findIndex (fun e : Credential => decide (e.id = c.id)) L = -1 :=
    findIndex_absent _ L (fun e he => by simpa using h e he)
  simp [saveCreds, this]

theorem saveCreds_present (L : List Credential) (c : Credential) (i : Nat) (hi : i < L.length)
    (hid : (L.get ⟨i, hi⟩).id = c.id)
    (hfirst : ∀ j (hj : j < i), (L.get ⟨j, Nat.lt_trans hj hi⟩).id ≠ c.id) :
    saveCreds L c = L.set i c := by
  have : findIndex (fun e : Credential => decide (e.id = c.id)) L = (i : Int) :=
    findIndex_first _ L i hi (by simpa using hid) (fun j hj => by simpa using hfirst j hj)
  simp [saveCreds, this]

theorem unlockedWith_after_reset (env : Env) (s : State cr) (k : cr.Key) (L : List Credential)
    (h : UnlockedWith env s k L) :
    (resetAutolockTimer env (restoreIfLocked env s)).derivedKey = some k ∧
      match (resetAutolockTimer env (restoreIfLocked env s)).vault with
      | none => L = []
      | some enc => cr.decryptJSON enc k = some { creds := L } := by
  obtain ⟨hk, hv⟩ := h
  refine ⟨hk, ?_⟩
  have : (resetAutolockTimer env (restoreIfLocked env s)).vault = s.vault :=
    restoreIfLocked_vault env s
  rw [this]; exact hv

theorem handleDelete_unlocked (env : Env) (s : State cr) (k : cr.Key) (L : List Credential)
    (id : String) (h : UnlockedWith env s k L) :
    handleDelete env id s =
      ({ resetAutolockTimer env (restoreIfLocked env s) with
          vault := some (cr.encryptJSON { creds := deleteCreds L id } k env.iv) }, .ok) := by
  obtain ⟨hk2, hv2⟩ := unlockedWith_after_reset env s k L h
  unfold handleDelete
  simp only [h.1, getVaultJson_unlocked env _ k L hk2 hv2, setVaultJson_unlocked env _ k _ hk2]

theorem handleList_unlocked (env : Env) (s : State cr) (k : cr.Key) (L : List Credential)
    (h : UnlockedWith env s k L) :
    handleList env s = (resetAutolockTimer env (restoreIfLocked env s), .okCreds L) := by
  obtain ⟨hk2, hv2⟩ := unlockedWith_after_reset env s k L h
  unfold handleList
  simp only [h.1, getVaultJson_unlocked env _ k L hk2 hv2]

theorem handleGetForOrigin_unlocked (env : Env) (s : State cr) (k : cr.Key)
    (L : List Credential) (origin : String) (h : UnlockedWith env s k L) :
    handleGetForOrigin env origin s =
      (resetAutolockTimer env (restoreIfLocked env s),
        .okCreds (L.filter (originsIncludes origin))) := by
  obtain ⟨hk2, hv2⟩ := unlockedWith_after_reset env s k L h
  unfold handleGetForOrigin
  simp only [h.1, getVaultJson_unlocked env _ k L hk2 hv2]

theorem getCredsForOrigin_unlocked (env : Env) (s : State cr) (k : cr.Key)
    (L : List Credential) (origin : String) (h : UnlockedWith env s k L) :
    getCredsForOrigin env origin s =
      (restoreIfLocked env s, .ok (L.filter (originsIncludes origin))) := by
  obtain ⟨hk, hv⟩ := h
  have hv2 : match (restoreIfLocked env s).vault with
      | none => L = []
      | some enc => cr.decryptJSON enc k = some { creds := L } := by
    rw [restoreIfLocked_vault]; exact hv
  unfold getCredsForOrigin
  simp only [hk, getVaultJson_unlocked env _ k L hk hv2]

theorem originsIncludes_iff (origin : String) (c : Credential) :
    originsIncludes origin c = true ↔ ∃ os, c.origins = some os ∧ origin ∈ os := by
  unfold originsIncludes
  cases c.origins with
  | none => simp
  | some os => simp

theorem stateAB_unlocked : UnlockedWith env0 stateAB keyA [credA, credB] :=
  ⟨rfl, rfl⟩

theorem restoreIfLocked_locked (env : Env) (s : State cr)
    (hk : s.derivedKey = none) (hs : s.session = none) : restoreIfLocked env s = s := by
  simp [restoreIfLocked, hk, tryRestoreKeyFromSession, hs]

theorem restoreIfLocked_resume (env : Env) (s : State cr) (jwk : cr.Jwk) (k : cr.Key)
    (hk : s.derivedKey = none) (hs : s.session = some jwk) (hi : cr.importKey jwk = some k) :
    restoreIfLocked env s = resetAutolockTimer env { s with derivedKey := some k } := by
  simp [restoreIfLocked, hk, tryRestoreKeyFromSession, hs, hi]

theorem crud_locked (env : Env) (s : State cr) (o id : String) (c : Credential)
    (hk : s.derivedKey = none) (hs : s.session = none) :
    ∀ msg ∈ crudRequests o id c, onMessage env msg s = (s, .fail "Locked") := by
  intro msg hmsg
  simp only [crudRequests, List.mem_cons, List.mem_singleton, List.not_mem_nil, or_false] at hmsg
  rcases hmsg with rfl | rfl | rfl | rfl <;>
    simp [onMessage, handleList, handleGetForOrigin, handleSave, handleDelete,
      restoreIfLocked_locked env s hk hs, hk]

theorem crud_unlocked (env : Env) (s : State cr) (k : cr.Key) (L : List Credential)
    (o id : String) (c : Credential) (h : UnlockedWith env s k L) :
    ∀ msg ∈ crudRequests o id c,
      (onMessage env msg s).2.isOk = true ∧
      (onMessage env msg s).1.derivedKey = some k ∧
      (onMessage env msg s).1.alarm = some (autolockMinutes (restoreIfLocked env s).autolockMs) ∧
      (onMessage env msg s).1.unlockedAt = env.now := by
  intro msg hmsg
  have hk := h.1
  simp only [crudRequests, List.mem_cons, List.mem_singleton, List.not_mem_nil, or_false] at hmsg
  rcases hmsg with rfl | rfl | rfl | rfl
  · simp [onMessage, handleList_unlocked env s k L h, Response.isOk, resetAutolockTimer, hk]
  · simp [onMessage, handleGetForOrigin_unlocked env s k L _ h, Response.isOk,
      resetAutolockTimer, hk]
  · simp [onMessage, handleSave_unlocked env s k L _ h, Response.isOk, resetAutolockTimer, hk]
  · simp [onMessage, handleDelete_unlocked env s k L _ h, Response.isOk, resetAutolockTimer, hk]

theorem finishUnlock_fst (env : Env) (key : cr.Key) (s : State cr) :
    (finishUnlock env key s).1.derivedKey = some key ∧
    (finishUnlock env key s).1.vault = s.vault ∧
    (∀ jwk, cr.exportKey key = some jwk → (finishUnlock env key s).1.session = some jwk) := by
  unfold finishUnlock
  cases h : cr.exportKey key <;> simp [resetAutolockTimer]

theorem handleUnlock_ok (env : Env) (pw : String) (s : State cr)
    (hrt : ∀ (v : Vault) (k : cr.Key) (iv : List Nat),
      cr.decryptJSON (cr.encryptJSON v k iv) k = some v)
    (hok : (handleUnlock env pw s).2 = .ok) :
    ∃ (key : cr.Key) (enc : cr.Enc) (v : Vault),
      (handleUnlock env pw s).1.derivedKey = some key ∧
      (handleUnlock env pw s).1.vault = some enc ∧
      cr.decryptJSON enc key = some v ∧
      (∀ jwk, cr.exportKey key = some jwk → (handleUnlock env pw s).1.session = some jwk) := by
  unfold handleUnlock at hok ⊢
  cases hd : deriveKeyFromMeta pw (ensureInit env s) with
  | error e => simp [hd] at hok
  | ok key =>
    simp only [hd] at hok ⊢
    cases hv : (ensureInit env s).vault with
    | none =>
      simp only [hv] at hok ⊢
      obtain ⟨h1, h2, h3⟩ := finishUnlock_fst env key
        { ensureInit env s with vault := some (cr.encryptJSON { creds := [] } key env.iv) }
      exact ⟨key, _, _, h1, h2, hrt _ _ _, h3⟩
    | some enc =>
      simp only [hv] at hok ⊢
      cases hdec : cr.decryptJSON enc key with
      | none => simp [hdec] at hok
      | some v =>
        simp only [hdec] at hok ⊢
        obtain ⟨h1, h2, h3⟩ := finishUnlock_fst env key (ensureInit env s)
        exact ⟨key, enc, v, h1, h2.trans hv, hdec, h3⟩

/-! ## Vault operations -/

/-- C1. `SAVE_CREDENTIAL` is an upsert by id on the decrypted list: on a vault unlocked
with list `L` the request answers ok and persists the encryption of a new list which is
`L ++ [c]` when no entry of `L` has the id of `c`, and otherwise has the length of `L`,
holds `c` at the index of the first entry with that id and agrees with `L` at every
other index. -/
theorem c1_save_credential_upsert (env : Env) (s : State cr) (k : cr.Key)
    (L : List Credential) (c : Credential) (h : UnlockedWith env s k L) :
    (onMessage env (.saveCredential c) s).2 = .ok ∧
    (onMessage env (.saveCredential c) s).1.vault
      = some (cr.encryptJSON { creds := saveCreds L c } k env.iv) ∧
    (onMessage env (.saveCredential c) s).1.derivedKey = some k ∧
    ((∀ e ∈ L, e.id ≠ c.id) → saveCreds L c = L ++ [c]) ∧
    (∀ (i : Nat) (hi : i < L.length), (L.get ⟨i, hi⟩).id = c.id →
      (∀ (j : Nat) (hj : j < i), (L.get ⟨j, Nat.lt_trans hj hi⟩).id ≠ c.id) →
      (saveCreds L c).length = L.length ∧ (saveCreds L c)[i]? = some c ∧
        ∀ j : Nat, j ≠ i → (saveCreds L c)[j]? = L[j]?) := by
  refine ⟨?_, ?_, ?_, ?_, ?_⟩
  · simp [onMessage, handleSave_unlocked env s k L c h]
  · simp [onMessage, handleSave_unlocked env s k L c h]
  · simpa [onMessage, handleSave_unlocked env s k L c h, resetAutolockTimer] using h.1
  · exact saveCreds_absent L c
  · intro i hi hid hfirst
    rw [saveCreds_present L c i hi hid hfirst]
    refine ⟨List.length_set _ _ _, ?_, ?_⟩
    · simp [List.getElem?_set, hi]
    · intro j hj
      simp [List.getElem?_set, Ne.symm hj]

/-- C2. `DELETE_CREDENTIAL` removes by id: on a vault unlocked with list `L` the request
answers ok and persists the encryption of `L` without the entries carrying the given id,
the others in their original order; when no entry has that id the list is `L` itself. -/
theorem c2_delete_credential_removes_by_id (env : Env) (s : State cr) (k : cr.Key)
    (L : List Credential) (id : String) (h : UnlockedWith env s k L) :
    (onMessage env (.deleteCredential id) s).2 = .ok ∧
    (onMessage env (.deleteCredential id) s).1.vault
      = some (cr.encryptJSON { creds := L.filter (fun e => decide (e.id ≠ id)) } k env.iv) ∧
    (onMessage env (.deleteCredential id) s).1.derivedKey = some k ∧
    (L.filter (fun e => decide (e.id ≠ id))).Sublist L ∧
    (∀ e, e ∈ L.filter (fun e => decide (e.id ≠ id)) ↔ e ∈ L ∧ e.id ≠ id) ∧
    ((∀ e ∈ L, e.id ≠ id) → L.filter (fun e => decide (e.id ≠ id)) = L) := by
  refine ⟨?_, ?_, ?_, List.filter_sublist _, ?_, ?_⟩
  · simp [onMessage, handleDelete_unlocked env s k L id h]
  · simp [onMessage, handleDelete_unlocked env s k L id h, deleteCreds]
  · simpa [onMessage, handleDelete_unlocked env s k L id h, resetAutolockTimer] using h.1
  · intro e; simp
  · intro hne
    exact List.filter_eq_self.mpr (fun e he => by simpa using hne e he)

/-- C3. Origin scoping: on a vault unlocked with list `L`, `GET_CREDENTIALS_FOR_ORIGIN`
(and the helper `getCredsForOrigin`) returns `L` filtered, in vault order, to exactly the
credentials whose `origins` list has an element equal to the requested origin. -/
theorem c3_origin_scoping (env : Env) (s : State cr) (k : cr.Key)
    (L : List Credential) (o : String) (h : UnlockedWith env s k L) :
    ∃ R : List Credential,
      (onMessage env (.getCredentialsForOrigin o) s).2 = .okCreds R ∧
      (getCredsForOrigin env o s).2 = .ok R ∧
      R = L.filter (fun c => decide (∃ os, c.origins = some os ∧ o ∈ os)) ∧
      R.Sublist L ∧
      (∀ c, c ∈ R ↔ c ∈ L ∧ ∃ os, c.origins = some os ∧ o ∈ os) ∧
      (∀ c ∈ L, ∀ os, c.origins = some os → o ∉ os → c ∉ R) := by
  have hfun : (originsIncludes o) = (fun c => decide (∃ os, c.origins = some os ∧ o ∈ os)) := by
    funext c
    rw [Bool.eq_iff_iff, originsIncludes_iff]
    simp
  refine ⟨L.filter (originsIncludes o), ?_, ?_, ?_, List.filter_sublist _, ?_, ?_⟩
  · simp [onMessage, handleGetForOrigin_unlocked env s k L o h]
  · simp [getCredsForOrigin_unlocked env s k L o h]
  · rw [hfun]
  · intro c
    rw [List.mem_filter, originsIncludes_iff]
  · intro c _ os hos hno hmem
    rw [List.mem_filter, originsIncludes_iff] at hmem
    obtain ⟨_, os2, h2, hin⟩ := hmem
    rw [hos] at h2
    cases h2
    exact hno hin

/-- C1 at a concrete input: saving a credential with the id of `credB` into `stateAB`. -/
theorem c1_save_credential_upsert_witness :
    UnlockedWith env0 stateAB keyA [credA, credB] ∧
      (onMessage env0 (.saveCredential { credB with password := "new" }) stateAB).1.vault
        = some (idealCrypto.encryptJSON
            { creds := saveCreds [credA, credB] { credB with password := "new" } } keyA env0.iv) :=
  ⟨stateAB_unlocked,
    (c1_save_credential_upsert env0 stateAB keyA [credA, credB]
      { credB with password := "new" } stateAB_unlocked).2.1⟩

/-- C2 at a concrete input: deleting an absent id from `stateAB`. -/
theorem c2_delete_credential_removes_by_id_witness :
    UnlockedWith env0 stateAB keyA [credA, credB] ∧
      (onMessage env0 (.deleteCredential "zzz") stateAB).2 = .ok :=
  ⟨stateAB_unlocked,
    (c2_delete_credential_removes_by_id env0 stateAB keyA [credA, credB] "zzz"
      stateAB_unlocked).1⟩

/-- C3 at a concrete input: `credB` has the username of `credA` and another origin. -/
theorem c3_origin_scoping_witness :
    UnlockedWith env0 stateAB keyA [credA, credB] ∧
      ∃ R : List Credential,
        (onMessage env0 (.getCredentialsForOrigin "https://a.example") stateAB).2 = .okCreds R ∧
        credB ∉ R :=
  ⟨stateAB_unlocked, by
    obtain ⟨R, h1, _, _, _, _, h6⟩ :=
      c3_origin_scoping env0 stateAB keyA [credA, credB] "https://a.example" stateAB_unlocked
    exact ⟨R, h1, h6 credB (by simp) ["https://b.example"] rfl (by decide)⟩⟩

/-! ## Session state machine -/

/-- C4 (the code departs from the claim). After `UNLOCK` and a saved credential the
worker is restarted, then the armed `autolock` alarm fires; the next `LIST_CREDENTIALS`
does not observe Locked: it answers ok and returns the stored credential. -/
theorem c4_alarm_after_restart_leaves_vault_open :
    (run [.message env0 (.unlock "pw"), .message env0 (.saveCredential credA),
          .restarted, .alarmFired, .message env0 .listCredentials]
        (initialState idealCrypto)).2 = [.ok, .ok, .okCreds [credA]] := by
  decide

/-- C5. Resume after restart: take any state reached by a successful `UNLOCK` whose key
export was written to the session store, drop the in-memory key while the session export
and the vault record stay; then each CRUD request succeeds, leaves a key in memory and
arms the timer anew. With no session export (and no key in memory) each CRUD request
leaves the state without a key. -/
theorem c5_resume_after_restart
    (hrt : ∀ (v : Vault) (k : cr.Key) (iv : List Nat),
      cr.decryptJSON (cr.encryptJSON v k iv) k = some v)
    (hei : ∀ (k : cr.Key) (jwk : cr.Jwk), cr.exportKey k = some jwk → cr.importKey jwk = some k)
    (env env2 : Env) (s t : State cr) (pw o id : String) (c : Credential)
    (hok : (onMessage env (.unlock pw) s).2 = .ok)
    (hexp : ∀ key, (onMessage env (.unlock pw) s).1.derivedKey = some key →
      (cr.exportKey key).isSome)
    (htk : t.derivedKey = none)
    (hts : t.session = (onMessage env (.unlock pw) s).1.session)
    (htv : t.vault = (onMessage env (.unlock pw) s).1.vault) :
    (∀ msg ∈ crudRequests o id c,
      (onMessage env2 msg t).2.isOk = true ∧
      (onMessage env2 msg t).1.derivedKey = (onMessage env (.unlock pw) s).1.derivedKey ∧
      (onMessage env2 msg t).1.derivedKey.isSome ∧
      (onMessage env2 msg t).1.alarm = some (autolockMinutes t.autolockMs) ∧
      (onMessage env2 msg t).1.unlockedAt = env2.now) ∧
    (∀ u : State cr, u.derivedKey = none → u.session = none →
      ∀ msg ∈ crudRequests o id c, (onMessage env2 msg u).1.derivedKey = none) := by
  constructor
  · have hok2 : (handleUnlock env pw s).2 = .ok := hok
    obtain ⟨key, enc, v, h1, h2, h3, h4⟩ := handleUnlock_ok env pw s hrt hok2
    have h1b : (onMessage env (.unlock pw) s).1.derivedKey = some key := h1
    obtain ⟨jwk, hj⟩ := Option.isSome_iff_exists.mp (hexp key h1b)
    have hsess : t.session = some jwk := by rw [hts]; exact h4 jwk hj
    have hres := restoreIfLocked_resume env2 t jwk key htk hsess (hei key jwk hj)
    have hU : UnlockedWith env2 t key v.creds := by
      refine ⟨by rw [hres]; rfl, ?_⟩
      have : t.vault = some enc := by rw [htv]; exact h2
      rw [this]; exact h3
    intro msg hmsg
    obtain ⟨a1, a2, a3, a4⟩ := crud_unlocked env2 t key v.creds o id c hU msg hmsg
    refine ⟨a1, by rw [a2, h1b], by rw [a2]; rfl, ?_, a4⟩
    rw [a3, hres]; rfl
  · intro u hk hs msg hmsg
    rw [crud_locked env2 u o id c hk hs msg hmsg]
    exact hk

/-- C5 at a concrete input: first unlock of a fresh installation, restart, CRUD. -/
theorem c5_resume_after_restart_witness :
    (onMessage env0 (.unlock "pw") (initialState idealCrypto)).2 = .ok ∧
    (restart stateFresh).derivedKey = none ∧
    ((onMessage env0 (.saveCredential credA) (restart stateFresh)).2.isOk = true ∧
      (onMessage env0 (.saveCredential credA) (restart stateFresh)).1.derivedKey
        = stateFresh.derivedKey ∧
      (onMessage env0 (.saveCredential credA) (restart stateFresh)).1.derivedKey.isSome ∧
      (onMessage env0 (.saveCredential credA) (restart stateFresh)).1.alarm
        = some (autolockMinutes (restart stateFresh).autolockMs) ∧
      (onMessage env0 (.saveCredential credA) (restart stateFresh)).1.unlockedAt = env0.now) :=
  ⟨rfl, rfl,
    (@c5_resume_after_restart idealCrypto
      (fun v k iv => by simp [idealCrypto])
      (fun k jwk h => by simp [idealCrypto] at h ⊢; exact h.symm)
      env0 env0 (initialState idealCrypto) (restart stateFresh) "pw" "https://a.example" "a" credA
      rfl (fun key _ => rfl) rfl rfl rfl).1
      (.saveCredential credA) (by simp [crudRequests])⟩

/-- C6 as stated fails: `Infinity` is a number and `Infinity >= 60000` holds, yet
`SET_AUTOLOCK` answers it with the failure and changes nothing. -/
theorem c6_infinity_is_rejected :
    JsNumber.ge .posInfinity (.finite 60000) = true ∧
      stateAB.localMeta = some metaA ∧
      onMessage env0 (.setAutolock .posInfinity) stateAB
        = (stateAB, .fail "Invalid autolock value; must be >= 1 minute") :=
  ⟨rfl, rfl, rfl⟩

/-- C6 (amended). Config floor: with the metadata record present, `SET_AUTOLOCK` with a
finite `ms < 60000` (whole or fractional) answers with a failure and changes nothing;
with a finite `ms >= 60000` it answers ok, stores `ms` in the metadata record and in the
in-memory duration, and re-arms the timer exactly when a key is held in memory. A
non-finite `ms` gets the same failure as a value below the floor. -/
theorem c6_set_autolock_floor (env : Env) (s : State cr) (m : VaultMeta) (ms : ℚ)
    (hm : s.localMeta = some m) :
    (ms < 60000 →
      onMessage env (.setAutolock (.finite ms)) s
        = (s, .fail "Invalid autolock value; must be >= 1 minute")) ∧
    (60000 ≤ ms →
      (onMessage env (.setAutolock (.finite ms)) s).2 = .ok ∧
      (onMessage env (.setAutolock (.finite ms)) s).1.localMeta
        = some { m with autolockMs := ms } ∧
      (onMessage env (.setAutolock (.finite ms)) s).1.autolockMs = ms ∧
      (s.derivedKey.isSome →
        (onMessage env (.setAutolock (.finite ms)) s).1.alarm = some (autolockMinutes ms) ∧
        (onMessage env (.setAutolock (.finite ms)) s).1.unlockedAt = env.now) ∧
      (s.derivedKey = none →
        (onMessage env (.setAutolock (.finite ms)) s).1.alarm = s.alarm ∧
        (onMessage env (.setAutolock (.finite ms)) s).1.unlockedAt = s.unlockedAt) ∧
      (onMessage env (.setAutolock (.finite ms)) s).1.derivedKey = s.derivedKey ∧
      (onMessage env (.setAutolock (.finite ms)) s).1.vault = s.vault ∧
      (onMessage env (.setAutolock (.finite ms)) s).1.session = s.session) ∧
    (∀ x : JsNumber, (∀ q, x ≠ .finite q) →
      onMessage env (.setAutolock x) s
        = (s, .fail "Invalid autolock value; must be >= 1 minute")) := by
  refine ⟨?_, ?_, ?_⟩
  · intro h
    have h2 : ms < 60 * 1000 := by norm_num; exact h
    simp only [onMessage, handleSetAutolock, if_pos h2]
  · intro h
    have h2 : ¬ ms < 60 * 1000 := by norm_num; exact h
    cases hk : s.derivedKey with
    | none => simp [onMessage, handleSetAutolock, if_neg h2, loadMeta, hm, saveMeta, hk]
    | some k =>
      simp [onMessage, handleSetAutolock, if_neg h2, loadMeta, hm, saveMeta, hk,
        resetAutolockTimer]
  · intro x hx
    cases x with
    | finite q => exact absurd rfl (hx q)
    | posInfinity => rfl
    | negInfinity => rfl
    | nan => rfl

/-- C6 (amended) at the boundary values 59999 and 60000 and at the fractional value
60000.5. -/
theorem c6_set_autolock_floor_witness :
    onMessage env0 (.setAutolock (.finite 59999)) stateAB
        = (stateAB, .fail "Invalid autolock value; must be >= 1 minute") ∧
      (onMessage env0 (.setAutolock (.finite 60000)) stateAB).2 = .ok ∧
      (onMessage env0 (.setAutolock (.finite (120001 / 2))) stateAB).1.autolockMs
        = 120001 / 2 :=
  ⟨(c6_set_autolock_floor env0 stateAB metaA 59999 rfl).1 (by norm_num),
    ((c6_set_autolock_floor env0 stateAB metaA 60000 rfl).2.1 (by norm_num)).1,
    ((c6_set_autolock_floor env0 stateAB metaA (120001 / 2) rfl).2.1 (by norm_num)).2.2.1⟩

/-- C7. Failed unlock stays Locked: from a state with no key in memory and a vault
record that the key derived from the passphrase does not decrypt, `UNLOCK` answers
`Invalid master password`; afterwards no key is in memory, and the session store, the
alarm and the vault record are as before. -/
theorem c7_failed_unlock_stays_locked (env : Env) (s : State cr) (pw : String)
    (enc : cr.Enc) (key : cr.Key)
    (hlocked : s.derivedKey = none) (hv : s.vault = some enc)
    (hkey : deriveKeyFromMeta pw (ensureInit env s) = .ok key)
    (hbad : cr.decryptJSON enc key = none) :
    (onMessage env (.unlock pw) s).2 = .fail "Invalid master password" ∧
    (onMessage env (.unlock pw) s).1.derivedKey = none ∧
    (onMessage env (.unlock pw) s).1.session = s.session ∧
    (onMessage env (.unlock pw) s).1.alarm = s.alarm ∧
    (onMessage env (.unlock pw) s).1.unlockedAt = s.unlockedAt ∧
    (onMessage env (.unlock pw) s).1.vault = some enc := by
  have hv2 : (ensureInit env s).vault = some enc := by
    unfold ensureInit saveMeta; split <;> exact hv
  have hall : onMessage env (.unlock pw) s = (ensureInit env s, .fail "Invalid master password") := by
    simp [onMessage, handleUnlock, hkey, hv2, hbad]
  rw [hall]
  refine ⟨rfl, ?_, ?_, ?_, ?_, hv2⟩ <;>
    (unfold ensureInit saveMeta; split <;> first | exact hlocked | rfl)

/-- C7 at a concrete input: a wrong passphrase on `stateLocked`. -/
theorem c7_failed_unlock_stays_locked_witness :
    (onMessage env0 (.unlock "wrong") stateLocked).2 = .fail "Invalid master password" ∧
      (onMessage env0 (.unlock "wrong") stateLocked).1.derivedKey = none :=
  ⟨(@c7_failed_unlock_stays_locked idealCrypto env0 stateLocked "wrong"
      { key := keyA, iv := [7], doc := { creds := [credA, credB] } }
      { password := "wrong", salt := [1, 2, 3], iterations := 310000 }
      rfl rfl rfl (by decide)).1,
   (@c7_failed_unlock_stays_locked idealCrypto env0 stateLocked "wrong"
      { key := keyA, iv := [7], doc := { creds := [credA, credB] } }
      { password := "wrong", salt := [1, 2, 3], iterations := 310000 }
      rfl rfl rfl (by decide)).2.1⟩

/-- C8 as stated fails: after `UNLOCK` on a fresh installation, `LOCK` leaves the
`autolock` alarm armed. -/
theorem c8_lock_leaves_alarm_armed :
    stateFresh.derivedKey.isSome = true ∧
      (onMessage env0 .lock stateFresh).2 = .ok ∧
      (onMessage env0 .lock stateFresh).1.alarm = some 5 := by
  refine ⟨rfl, rfl, ?_⟩
  show some (autolockMinutes (5 * 60 * 1000)) = some 5
  rw [autolockMinutes_default]

/-- C8 (amended). The lock transition discards the in-memory key and removes the
session-store key export: `LOCK` does exactly that, answers ok and leaves every other
part of the state, the armed alarm included, as it was; the `autolock` alarm firing while
a key is held does the same, and its one-shot alarm is no longer armed afterwards. -/
theorem c8_lock_transition (env : Env) (s : State cr) :
    onMessage env .lock s
      = ({ s with derivedKey := none, unlockedAt := 0, session := none }, .ok) ∧
    (s.derivedKey.isSome → s.alarm.isSome →
      alarmFires s
        = { s with derivedKey := none, unlockedAt := 0, session := none, alarm := none }) := by
  refine ⟨rfl, ?_⟩
  intro hk ha
  obtain ⟨a, ha⟩ := Option.isSome_iff_exists.mp ha
  simp [alarmFires, ha, onAlarm, hk, lockVault]

/-- C8 (amended) at a concrete input: the alarm fires in `stateAB`. -/
theorem c8_lock_transition_witness :
    stateAB.derivedKey.isSome ∧ stateAB.alarm.isSome ∧
      alarmFires stateAB
        = { stateAB with derivedKey := none, unlockedAt := 0, session := none, alarm := none } :=
  ⟨rfl, rfl, (c8_lock_transition env0 stateAB).2 rfl rfl⟩

/-- C9. CRUD while locked fails atomically: with no key in memory and no key export in
the session store, each of the four CRUD requests answers `{ok: false, error: Locked}`
and leaves the whole state unchanged. -/
theorem c9_crud_while_locked_fails (env : Env) (s : State cr) (o id : String) (c : Credential)
    (hk : s.derivedKey = none) (hs : s.session = none) :
    onMessage env .listCredentials s = (s, .fail "Locked") ∧
    onMessage env (.getCredentialsForOrigin o) s = (s, .fail "Locked") ∧
    onMessage env (.saveCredential c) s = (s, .fail "Locked") ∧
    onMessage env (.deleteCredential id) s = (s, .fail "Locked") := by
  have h := crud_locked env s o id c hk hs
  exact ⟨h _ (by simp [crudRequests]), h _ (by simp [crudRequests]),
    h _ (by simp [crudRequests]), h _ (by simp [crudRequests])⟩

/-- C9 at a concrete input: saving into `stateLocked`. -/
theorem c9_crud_while_locked_fails_witness :
    stateLocked.derivedKey = none ∧ stateLocked.session = none ∧
      onMessage env0 (.saveCredential credA) stateLocked = (stateLocked, .fail "Locked") :=
  ⟨rfl, rfl, (c9_crud_while_locked_fails env0 stateLocked "o" "a" credA rfl rfl).2.2.1⟩

theorem findIndex_cases {α : Type} (p : α → Bool) (l : List α) :
    (findIndex p l = -1 ∧ ∀ x ∈ l, p x = false) ∨
      ∃ (i : Nat) (hi : i < l.length), findIndex p l = (i : Int) ∧ p (l.get ⟨i, hi⟩) = true := by
  induction l with
  | nil => left; simp [findIndex]
  | cons x xs ih =>
    by_cases hx : p x = true
    · right
      exact ⟨0, by simp, by simp [findIndex, hx], by simpa using hx⟩
    · have hx2 : p x = false := by simpa using hx
      rcases ih with ⟨h1, h2⟩ | ⟨i, hi, h1, h2⟩
      · left
        refine ⟨by simp [findIndex, hx2, h1], ?_⟩
        intro y hy
        rcases List.mem_cons.mp hy with rfl | hy
        · exact hx2
        · exact h2 y hy
      · right
        refine ⟨i + 1, by simpa using hi, ?_, by simpa using h2⟩
        simp only [findIndex, hx2, h1]
        simp

theorem saveCreds_cases (L : List Credential) (c : Credential) :
    (saveCreds L c = L ++ [c] ∧ ∀ e ∈ L, e.id ≠ c.id) ∨
      ∃ (i : Nat) (hi : i < L.length), (L.get ⟨i, hi⟩).id = c.id ∧ saveCreds L c = L.set i c := by
  rcases findIndex_cases (fun e : Credential => decide (e.id = c.id)) L with
    ⟨h1, h2⟩ | ⟨i, hi, h1, h2⟩
  · left
    exact ⟨by simp [saveCreds, h1], fun e he => by simpa using h2 e he⟩
  · right
    exact ⟨i, hi, by simpa using h2, by simp [saveCreds, h1]⟩

theorem saveCreds_distinct (L : List Credential) (c : Credential) (h : DistinctIds L) :
    DistinctIds (saveCreds L c) := by
  rcases saveCreds_cases L c with ⟨h1, h2⟩ | ⟨i, hi, h1, h2⟩
  · rw [h1]
    unfold DistinctIds at h ⊢
    rw [List.pairwise_append]
    refine ⟨h, by simp, ?_⟩
    intro a ha b hb
    rw [List.mem_singleton] at hb
    rw [hb]
    exact h2 a ha
  · rw [h2]
    unfold DistinctIds at h ⊢
    have hmap : (L.set i c).map (fun e => e.id) = L.map (fun e => e.id) := by
      rw [List.map_set]
      apply List.ext_getElem
      · simp
      · intro n hn1 hn2
        by_cases hni : i = n
        · subst hni
          simp only [List.getElem_set_self, List.getElem_map]
          exact h1.symm
        · simp [List.getElem_set_ne hni]
    have h3 : ((L.set i c).map (fun e => e.id)).Pairwise (fun a b => a ≠ b) := by
      rw [hmap]; exact List.pairwise_map.mpr h
    exact List.pairwise_map.mp h3

theorem deleteCreds_distinct (L : List Credential) (id : String) (h : DistinctIds L) :
    DistinctIds (deleteCreds L id) :=
  List.Pairwise.sublist (List.filter_sublist _) h

theorem ensureInit_vault (env : Env) (s : State cr) : (ensureInit env s).vault = s.vault := by
  unfold ensureInit saveMeta; split <;> rfl

theorem ensureInit_meta_isSome (env : Env) (s : State cr) :
    ∃ m, (ensureInit env s).localMeta = some m := by
  unfold ensureInit saveMeta loadMeta
  cases h : s.localMeta with
  | none => exact ⟨_, rfl⟩
  | some m => exact ⟨m, by simp [h]⟩

theorem handleUnlock_first (env : Env) (pw : String) (s : State cr) (hv : s.vault = none) :
    ∃ key : cr.Key,
      (handleUnlock env pw s).2 = .ok ∧
      (handleUnlock env pw s).1.vault = some (cr.encryptJSON { creds := [] } key env.iv) := by
  obtain ⟨m, hm⟩ := ensureInit_meta_isSome env s
  have hv2 : (ensureInit env s).vault = none := by rw [ensureInit_vault]; exact hv
  refine ⟨cr.deriveKeyPBKDF2 pw (cr.base64ToBytes m.saltB64) m.iterations, ?_, ?_⟩
  · unfold handleUnlock
    simp only [deriveKeyFromMeta, loadMeta, hm, hv2, finishUnlock]
    split <;> rfl
  · unfold handleUnlock
    simp only [deriveKeyFromMeta, loadMeta, hm, hv2]
    exact (finishUnlock_fst env _ _).2.1

/-! ## Invariants of the vault and of the metadata -/

/-- C16. Credential id uniqueness is preserved: on a vault unlocked with a list `L` of
pairwise distinct ids, the list persisted by `SAVE_CREDENTIAL` (any credential) and the
list persisted by `DELETE_CREDENTIAL` (any id) again have pairwise distinct ids; and the
vault created by the first `UNLOCK` is the empty list, which has them too. -/
theorem c16_credential_ids_stay_distinct (env : Env) (s : State cr) (k : cr.Key)
    (L : List Credential) (hU : UnlockedWith env s k L) (hL : DistinctIds L) :
    (∀ c : Credential,
      (onMessage env (.saveCredential c) s).1.vault
        = some (cr.encryptJSON { creds := saveCreds L c } k env.iv) ∧
      DistinctIds (saveCreds L c)) ∧
    (∀ id : String,
      (onMessage env (.deleteCredential id) s).1.vault
        = some (cr.encryptJSON { creds := deleteCreds L id } k env.iv) ∧
      DistinctIds (deleteCreds L id)) ∧
    (∀ (pw : String) (s0 : State cr), s0.vault = none →
      ∃ key : cr.Key,
        (onMessage env (.unlock pw) s0).1.vault
          = some (cr.encryptJSON { creds := [] } key env.iv) ∧
        DistinctIds []) := by
  refine ⟨?_, ?_, ?_⟩
  · intro c
    exact ⟨by simp [onMessage, handleSave_unlocked env s k L c hU], saveCreds_distinct L c hL⟩
  · intro id
    exact ⟨by simp [onMessage, handleDelete_unlocked env s k L id hU],
      deleteCreds_distinct L id hL⟩
  · intro pw s0 hv
    obtain ⟨key, _, h2⟩ := handleUnlock_first env pw s0 hv
    exact ⟨key, h2, List.Pairwise.nil⟩

/-- C16 at a concrete input: saving over `credB` in `stateAB` keeps the ids distinct. -/
theorem c16_credential_ids_stay_distinct_witness :
    DistinctIds [credA, credB] ∧
      DistinctIds (saveCreds [credA, credB] { credB with password := "new" }) :=
  ⟨by unfold DistinctIds; decide,
    ((c16_credential_ids_stay_distinct env0 stateAB keyA [credA, credB] stateAB_unlocked
      (by unfold DistinctIds; decide)).1 { credB with password := "new" }).2⟩

theorem restoreIfLocked_config (env : Env) (s : State cr) :
    SameConfig s (restoreIfLocked env s) := by
  unfold SameConfig restoreIfLocked tryRestoreKeyFromSession resetAutolockTimer
  split
  · split
    · exact ⟨rfl, rfl⟩
    · split <;> exact ⟨rfl, rfl⟩
  · exact ⟨rfl, rfl⟩

theorem sameConfig_trans {s t u : State cr} (h1 : SameConfig s t) (h2 : SameConfig t u) :
    SameConfig s u :=
  ⟨h2.1.trans h1.1, h2.2.trans h1.2⟩

theorem getVaultJson_config (env : Env) (s : State cr) :
    SameConfig s (getVaultJson env s).1 := by
  unfold getVaultJson
  split
  · exact ⟨rfl, rfl⟩
  · dsimp only
    split
    · exact restoreIfLocked_config env s
    · split <;> exact restoreIfLocked_config env s

theorem setVaultJson_config (env : Env) (json : Vault) (s : State cr) :
    SameConfig s (setVaultJson env json s).1 := by
  unfold setVaultJson
  dsimp only
  split
  · exact restoreIfLocked_config env s
  · exact restoreIfLocked_config env s

theorem resetAutolockTimer_config (env : Env) (s : State cr) :
    SameConfig s (resetAutolockTimer env s) := ⟨rfl, rfl⟩

theorem handleList_config (env : Env) (s : State cr) : SameConfig s (handleList env s).1 := by
  unfold handleList
  dsimp only
  have h1 := restoreIfLocked_config env s
  have h2 := sameConfig_trans (sameConfig_trans h1 (resetAutolockTimer_config env _))
    (getVaultJson_config env (resetAutolockTimer env (restoreIfLocked env s)))
  split
  · exact h1
  · split <;> rename_i heq <;> rw [heq] at h2 <;> exact h2

theorem handleGetForOrigin_config (env : Env) (o : String) (s : State cr) :
    SameConfig s (handleGetForOrigin env o s).1 := by
  unfold handleGetForOrigin
  dsimp only
  have h1 := restoreIfLocked_config env s
  have h2 := sameConfig_trans (sameConfig_trans h1 (resetAutolockTimer_config env _))
    (getVaultJson_config env (resetAutolockTimer env (restoreIfLocked env s)))
  split
  · exact h1
  · split <;> rename_i heq <;> rw [heq] at h2 <;> exact h2

theorem handleSave_config (env : Env) (c : Credential) (s : State cr) :
    SameConfig s (handleSave env c s).1 := by
  unfold handleSave
  dsimp only
  have h1 := restoreIfLocked_config env s
  have h2 := sameConfig_trans (sameConfig_trans h1 (resetAutolockTimer_config env _))
    (getVaultJson_config env (resetAutolockTimer env (restoreIfLocked env s)))
  split
  · exact h1
  · split
    · rename_i heq; rw [heq] at h2; exact h2
    · rename_i s2 vault heq
      rw [heq] at h2
      have h3 := sameConfig_trans h2 (setVaultJson_config env { creds := saveCreds vault.creds c } s2)
      split <;> rename_i heq2 <;> rw [heq2] at h3 <;> exact h3

theorem handleDelete_config (env : Env) (id : String) (s : State cr) :
    SameConfig s (handleDelete env id s).1 := by
  unfold handleDelete
  dsimp only
  have h1 := restoreIfLocked_config env s
  have h2 := sameConfig_trans (sameConfig_trans h1 (resetAutolockTimer_config env _))
    (getVaultJson_config env (resetAutolockTimer env (restoreIfLocked env s)))
  split
  · exact h1
  · split
    · rename_i heq; rw [heq] at h2; exact h2
    · rename_i s2 vault heq
      rw [heq] at h2
      have h3 := sameConfig_trans h2 (setVaultJson_config env { creds := deleteCreds vault.creds id } s2)
      split <;> rename_i heq2 <;> rw [heq2] at h3 <;> exact h3

theorem finishUnlock_config (env : Env) (key : cr.Key) (s : State cr) :
    SameConfig s (finishUnlock env key s).1 := by
  unfold finishUnlock
  split <;> exact ⟨rfl, rfl⟩

theorem handleUnlock_meta (env : Env) (pw : String) (s : State cr) :
    (handleUnlock env pw s).1.localMeta = (ensureInit env s).localMeta ∧
    (handleUnlock env pw s).1.autolockMs = (ensureInit env s).autolockMs := by
  unfold handleUnlock
  dsimp only
  split
  · exact ⟨rfl, rfl⟩
  · split
    · split
      · exact ⟨rfl, rfl⟩
      · exact finishUnlock_config env _ _
    · exact finishUnlock_config env _ _

theorem kdfKept_of_sameConfig {s t : State cr} (h : SameConfig s t) : KdfKept s t :=
  fun m hm => ⟨m, h.1.trans hm, rfl, rfl⟩

theorem kdfKept_trans {s t u : State cr} (h1 : KdfKept s t) (h2 : KdfKept t u) :
    KdfKept s u := by
  intro m hm
  obtain ⟨m2, hm2, a, b⟩ := h1 m hm
  obtain ⟨m3, hm3, c, d⟩ := h2 m2 hm2
  exact ⟨m3, hm3, c.trans a, d.trans b⟩

theorem configOk_of_sameConfig {s t : State cr} (h : SameConfig s t) (hs : ConfigOk s) :
    ConfigOk t := by
  obtain ⟨h1, h2⟩ := h
  refine ⟨by rw [h2]; exact hs.1, ?_⟩
  intro m hm
  exact hs.2 m (by rw [← h1]; exact hm)

theorem ensureInit_existing (env : Env) (s : State cr) (m : VaultMeta)
    (hm : s.localMeta = some m) : (ensureInit env s).localMeta = some m := by
  simp [ensureInit, loadMeta, hm]

theorem ensureInit_created (env : Env) (s : State cr) (hm : s.localMeta = none) :
    (ensureInit env s).localMeta =
      some { kdf := "PBKDF2", iterations := 310000, saltB64 := cr.bytesToBase64 env.saltBytes,
             autolockMs := s.autolockMs, createdAt := env.now, updatedAt := env.now } := by
  simp [ensureInit, loadMeta, hm, saveMeta]

theorem ensureInit_kdf (env : Env) (s : State cr) : KdfKept s (ensureInit env s) :=
  fun m hm => ⟨m, ensureInit_existing env s m hm, rfl, rfl⟩

theorem ensureInit_configOk (env : Env) (s : State cr) (hs : ConfigOk s) :
    ConfigOk (ensureInit env s) := by
  cases hm : s.localMeta with
  | none =>
    refine ⟨by simpa [ensureInit, loadMeta, hm, saveMeta] using hs.1, ?_⟩
    intro m h
    rw [ensureInit_created env s hm] at h
    cases h
    exact ⟨by show (100000 : Nat) ≤ 310000; decide, hs.1⟩
  | some m0 =>
    have hm0 := hs.2 m0 hm
    refine ⟨?_, ?_⟩
    · simp only [ensureInit, loadMeta, hm]
      split
      · exact hs.1
      · exact hm0.2
    · intro m h
      rw [ensureInit_existing env s m0 hm] at h
      cases h
      exact hm0

theorem handleSetAutolock_kdf (env : Env) (ms : JsNumber) (s : State cr) :
    KdfKept s (handleSetAutolock env ms s).1 := by
  intro m hm
  unfold handleSetAutolock
  cases ms with
  | posInfinity => exact ⟨m, hm, rfl, rfl⟩
  | negInfinity => exact ⟨m, hm, rfl, rfl⟩
  | nan => exact ⟨m, hm, rfl, rfl⟩
  | finite n =>
    dsimp only
    split
    · exact ⟨m, hm, rfl, rfl⟩
    · simp only [loadMeta, hm, saveMeta]
      split <;> exact ⟨_, rfl, rfl, rfl⟩

theorem handleSetAutolock_configOk (env : Env) (ms : JsNumber) (s : State cr)
    (hs : ConfigOk s) : ConfigOk (handleSetAutolock env ms s).1 := by
  unfold handleSetAutolock
  cases ms with
  | posInfinity => exact hs
  | negInfinity => exact hs
  | nan => exact hs
  | finite n =>
    dsimp only
    split
    · exact hs
    · rename_i hn
      have hn2 : (60000 : ℚ) ≤ n := by
        have := not_lt.mp hn
        norm_num at this
        exact this
      cases hm : s.localMeta with
      | none => simp only [loadMeta, hm]; exact hs
      | some m0 =>
        have hm0 := hs.2 m0 hm
        simp only [loadMeta, hm, saveMeta]
        split
        · refine ⟨hn2, ?_⟩
          intro m h
          simp only [resetAutolockTimer, Option.some.injEq] at h
          subst h
          exact ⟨hm0.1, hn2⟩
        · refine ⟨hn2, ?_⟩
          intro m h
          simp only [Option.some.injEq] at h
          subst h
          exact ⟨hm0.1, hn2⟩

theorem onMessage_kdf (env : Env) (msg : Msg) (s : State cr) :
    KdfKept s (onMessage env msg s).1 := by
  cases msg with
  | status => exact kdfKept_of_sameConfig (restoreIfLocked_config env s)
  | unlock pw =>
    intro m hm
    exact ⟨m, (handleUnlock_meta env pw s).1.trans (ensureInit_existing env s m hm), rfl, rfl⟩
  | lock => exact fun m hm => ⟨m, hm, rfl, rfl⟩
  | getCredentialsForOrigin o => exact kdfKept_of_sameConfig (handleGetForOrigin_config env o s)
  | saveCredential c => exact kdfKept_of_sameConfig (handleSave_config env c s)
  | listCredentials => exact kdfKept_of_sameConfig (handleList_config env s)
  | deleteCredential id => exact kdfKept_of_sameConfig (handleDelete_config env id s)
  | generatePassword o => exact fun m hm => ⟨m, hm, rfl, rfl⟩
  | setAutolock ms => exact handleSetAutolock_kdf env ms s
  | unknown t => exact fun m hm => ⟨m, hm, rfl, rfl⟩

theorem onMessage_configOk (env : Env) (msg : Msg) (s : State cr) (hs : ConfigOk s) :
    ConfigOk (onMessage env msg s).1 := by
  cases msg with
  | status => exact configOk_of_sameConfig (restoreIfLocked_config env s) hs
  | unlock pw =>
    have h := handleUnlock_meta env pw s
    exact configOk_of_sameConfig (s := ensureInit env s) ⟨h.1, h.2⟩ (ensureInit_configOk env s hs)
  | lock => exact hs
  | getCredentialsForOrigin o =>
    exact configOk_of_sameConfig (handleGetForOrigin_config env o s) hs
  | saveCredential c => exact configOk_of_sameConfig (handleSave_config env c s) hs
  | listCredentials => exact configOk_of_sameConfig (handleList_config env s) hs
  | deleteCredential id => exact configOk_of_sameConfig (handleDelete_config env id s) hs
  | generatePassword o => exact hs
  | setAutolock ms => exact handleSetAutolock_configOk env ms s hs
  | unknown t => exact hs

theorem alarmFires_config (s : State cr) : SameConfig s (alarmFires s) := by
  unfold alarmFires onAlarm lockVault
  split
  · exact ⟨rfl, rfl⟩
  · dsimp only
    split
    · split <;> exact ⟨rfl, rfl⟩
    · exact ⟨rfl, rfl⟩

theorem step_kdf (e : Event) (s : State cr) : KdfKept s (step e s).1 := by
  cases e with
  | message env msg => exact onMessage_kdf env msg s
  | alarmFired => exact kdfKept_of_sameConfig (alarmFires_config s)
  | restarted => exact fun m hm => ⟨m, hm, rfl, rfl⟩
  | installed env => exact ensureInit_kdf env s

theorem step_configOk (e : Event) (s : State cr) (hs : ConfigOk s) : ConfigOk (step e s).1 := by
  cases e with
  | message env msg => exact onMessage_configOk env msg s hs
  | alarmFired => exact configOk_of_sameConfig (alarmFires_config s) hs
  | restarted => exact ⟨by show (60000 : ℚ) ≤ 5 * 60 * 1000; norm_num, hs.2⟩
  | installed env => exact ensureInit_configOk env s hs

theorem run_kdf (es : List Event) (s : State cr) : KdfKept s (run es s).1 := by
  induction es generalizing s with
  | nil => exact fun m hm => ⟨m, hm, rfl, rfl⟩
  | cons e es ih => exact kdfKept_trans (step_kdf e s) (ih (step e s).1)

theorem run_configOk (es : List Event) (s : State cr) (hs : ConfigOk s) :
    ConfigOk (run es s).1 := by
  induction es generalizing s with
  | nil => exact hs
  | cons e es ih => exact ih (step e s).1 (step_configOk e s hs)

theorem initialState_configOk : ConfigOk (initialState cr) :=
  ⟨by show (60000 : ℚ) ≤ 5 * 60 * 1000; norm_num, fun m h => by simp [initialState] at h⟩

/-- C11. KDF parameters are immutable: from a state whose metadata record exists, every
message handler, every call of `ensureInit` and every run of the state machine leaves a
metadata record with the same salt and the same iteration count; and in every state
reachable from a fresh installation the metadata that `ensureInit` creates, like any
stored metadata, has `iterations >= 100000` and `autolockMs >= 60000`. -/
theorem c11_kdf_parameters_immutable (s : State cr) (m : VaultMeta)
    (hm : s.localMeta = some m) :
    (∀ (env : Env) (msg : Msg), ∃ m2, (onMessage env msg s).1.localMeta = some m2 ∧
      m2.saltB64 = m.saltB64 ∧ m2.iterations = m.iterations) ∧
    (∀ env : Env, (ensureInit env s).localMeta = some m) ∧
    (∀ es : List Event, ∃ m2, (run es s).1.localMeta = some m2 ∧
      m2.saltB64 = m.saltB64 ∧ m2.iterations = m.iterations) ∧
    (∀ (es : List Event) (env : Env), (run es (initialState cr)).1.localMeta = none →
      ∃ m2, (ensureInit env (run es (initialState cr)).1).localMeta = some m2 ∧
        m2.saltB64 = cr.bytesToBase64 env.saltBytes ∧
        100000 ≤ m2.iterations ∧ 60000 ≤ m2.autolockMs) ∧
    (∀ (es : List Event) (m2 : VaultMeta), (run es (initialState cr)).1.localMeta = some m2 →
      100000 ≤ m2.iterations ∧ 60000 ≤ m2.autolockMs) := by
  refine ⟨fun env msg => onMessage_kdf env msg s m hm,
    fun env => ensureInit_existing env s m hm,
    fun es => run_kdf es s m hm, ?_, ?_⟩
  · intro es env hnone
    have hok := run_configOk es (initialState cr) initialState_configOk
    refine ⟨_, ensureInit_created env _ hnone, rfl, ?_, hok.1⟩
    show (100000 : Nat) ≤ 310000
    decide
  · intro es m2 h
    exact (run_configOk es (initialState cr) initialState_configOk).2 m2 h

/-- C11 at a concrete input: changing the duration, restarting and unlocking again from
`stateAB` leaves the salt and the iteration count of `metaA`. -/
theorem c11_kdf_parameters_immutable_witness :
    stateAB.localMeta = some metaA ∧
      ∃ m2, (run [.message env0 (.setAutolock (.finite 120000)), .restarted,
                  .message env0 (.unlock "pw")] stateAB).1.localMeta = some m2 ∧
        m2.saltB64 = metaA.saltB64 ∧ m2.iterations = metaA.iterations :=
  ⟨rfl, (c11_kdf_parameters_immutable stateAB metaA rfl).2.2.1 _⟩

theorem escapeChar_cases (c : Char) :
    (escapeChar c = [c] ∧ c ≠ '&' ∧ c ≠ '<' ∧ c ≠ '>' ∧ c ≠ Char.ofNat 34 ∧ c ≠ Char.ofNat 39) ∨
      (∃ e ∈ entities, escapeChar c = e.1 ∧ e.2 = c) := by
  unfold escapeChar
  by_cases h1 : c = '&'
  · right; exact ⟨("&amp;".toList, '&'), by simp [entities], by simp [h1], h1.symm⟩
  by_cases h2 : c = '<'
  · right; exact ⟨("&lt;".toList, '<'), by simp [entities], by simp [h2], h2.symm⟩
  by_cases h3 : c = '>'
  · right; exact ⟨("&gt;".toList, '>'), by simp [entities], by simp [h3], h3.symm⟩
  by_cases h4 : c = Char.ofNat 34
  · right
    exact ⟨("&quot;".toList, Char.ofNat 34), by simp [entities], by rw [h4]; decide, h4.symm⟩
  by_cases h5 : c = Char.ofNat 39
  · right
    exact ⟨("&#39;".toList, Char.ofNat 39), by simp [entities], by rw [h5]; decide, h5.symm⟩
  left
  exact ⟨by simp [h1, h2, h3, h4, h5], h1, h2, h3, h4, h5⟩

theorem entities_shape :
    ∀ e ∈ entities, e.1 = '&' :: e.1.tail ∧
      (∀ x ∈ e.1.tail, x ≠ '&') ∧
      (∀ x ∈ e.1, x ≠ '<' ∧ x ≠ '>' ∧ x ≠ Char.ofNat 34 ∧ x ≠ Char.ofNat 39) := by
  decide

theorem escapeHtml_no_markup (l : List Char) :
    ∀ ch ∈ l.flatMap escapeChar,
      ch ≠ '<' ∧ ch ≠ '>' ∧ ch ≠ Char.ofNat 34 ∧ ch ≠ Char.ofNat 39 := by
  intro ch hch
  obtain ⟨c, _, hc⟩ := List.mem_flatMap.mp hch
  rcases escapeChar_cases c with ⟨h0, _, h2, h3, h4, h5⟩ | ⟨e, he, h0, _⟩
  · rw [h0, List.mem_singleton] at hc
    subst hc
    exact ⟨h2, h3, h4, h5⟩
  · rw [h0] at hc
    exact (entities_shape e he).2.2 ch hc

theorem escapeHtml_amp (l : List Char) :
    ∀ pre suf : List Char, l.flatMap escapeChar = pre ++ '&' :: suf →
      ∃ e ∈ entities, ∃ t, '&' :: suf = e.1 ++ t := by
  induction l with
  | nil => intro pre suf h; simp at h
  | cons c cs ih =>
    intro pre suf h
    rw [List.flatMap_cons, List.append_eq_append_iff] at h
    rcases h with ⟨a, h1, h2⟩ | ⟨b, h1, h2⟩
    · exact ih a suf h2
    · cases b with
      | nil =>
        simp only [List.nil_append] at h2
        exact ih [] suf h2.symm
      | cons b0 bs =>
        simp only [List.cons_append, List.cons.injEq] at h2
        obtain ⟨hb0, hsuf⟩ := h2
        subst hb0
        rcases escapeChar_cases c with ⟨h0, hne, _⟩ | ⟨e, he, h0, _⟩
        · rw [h0] at h1
          cases pre with
          | nil =>
            simp only [List.nil_append, List.cons.injEq] at h1
            exact absurd h1.1 hne
          | cons p ps => simp at h1
        · obtain ⟨hs1, hs2, _⟩ := entities_shape e he
          rw [h0] at h1
          cases pre with
          | nil =>
            refine ⟨e, he, cs.flatMap escapeChar, ?_⟩
            simp only [List.nil_append] at h1
            rw [h1, hsuf]
            simp
          | cons p ps =>
            exfalso
            rw [hs1] at h1
            simp only [List.cons_append, List.cons.injEq] at h1
            have : '&' ∈ e.1.tail := by rw [h1.2]; simp
            exact hs2 '&' this rfl

theorem unescapeScan_skip (n : Nat) (pre rest : List Char) (h : pre.length = n) :
    unescapeScan n (pre ++ rest) = unescapeScan 0 rest := by
  induction pre generalizing n with
  | nil => simp at h; subst h; rfl
  | cons p ps ih =>
    cases n with
    | zero => simp at h
    | succ k =>
      simp only [List.cons_append, unescapeScan]
      exact ih k (by simpa using h)

theorem entityAt_entity :
    ∀ e ∈ entities, ∀ rest : List Char,
      entityAt (e.1 ++ rest) = some (e.2, e.1.length - 1) := by
  intro e he rest
  simp only [entities, List.mem_cons, List.mem_singleton, List.not_mem_nil, or_false] at he
  rcases he with rfl | rfl | rfl | rfl | rfl <;>
    simp [entityAt, entities, List.find?, List.isPrefixOf]

theorem entityAt_other (c : Char) (rest : List Char) (hc : c ≠ '&') :
    entityAt (c :: rest) = none := by
  have hc2 : ('&' == c) = false := by
    simpa using fun h : '&' = c => hc h.symm
  simp [entityAt, entities, List.find?, List.isPrefixOf, hc2]

theorem unescapeScan_escape (l : List Char) :
    unescapeScan 0 (l.flatMap escapeChar) = l := by
  induction l with
  | nil => rfl
  | cons c cs ih =>
    rw [List.flatMap_cons]
    rcases escapeChar_cases c with ⟨h0, hne, _⟩ | ⟨e, he, h0, h1⟩
    · rw [h0]
      simp only [List.singleton_append, unescapeScan, entityAt_other c _ hne]
      simp [ih]
    · obtain ⟨hs1, _, _⟩ := entities_shape e he
      rw [h0]
      have hent := entityAt_entity e he (cs.flatMap escapeChar)
      rw [hs1] at hent ⊢
      simp only [List.cons_append] at hent ⊢
      simp only [unescapeScan, hent]
      rw [unescapeScan_skip _ e.1.tail _ (by simp), ih, h1]

theorem escapeHtml_plain (l : List Char)
    (h : ∀ ch ∈ l, ch ≠ '&' ∧ ch ≠ '<' ∧ ch ≠ '>' ∧ ch ≠ Char.ofNat 34 ∧ ch ≠ Char.ofNat 39) :
    l.flatMap escapeChar = l := by
  induction l with
  | nil => rfl
  | cons c cs ih =>
    obtain ⟨h1, h2, h3, h4, h5⟩ := h c (List.mem_cons_self _ _)
    rw [List.flatMap_cons, ih (fun ch hch => h ch (List.mem_cons_of_mem _ hch))]
    simp [escapeChar, h1, h2, h3, h4, h5]

/-! ## Page-side helpers -/

/-- C17. `escapeHtml` neutralises markup: its output contains none of `<`, `>`, the double
quote and the apostrophe; every `&` of the output is the first character of one of the
five entities; replacing the entities by their characters gives the input back; and an
input without the five special characters is returned unchanged. -/
theorem c17_escapeHtml_neutralises_markup (s : String) :
    (∀ ch ∈ (escapeHtml s).toList,
      ch ≠ '<' ∧ ch ≠ '>' ∧ ch ≠ Char.ofNat 34 ∧ ch ≠ Char.ofNat 39) ∧
    (∀ pre suf : List Char, (escapeHtml s).toList = pre ++ '&' :: suf →
      ∃ e ∈ entities, ∃ t, '&' :: suf = e.1 ++ t) ∧
    unescapeHtml (escapeHtml s) = s ∧
    ((∀ ch ∈ s.toList,
        ch ≠ '&' ∧ ch ≠ '<' ∧ ch ≠ '>' ∧ ch ≠ Char.ofNat 34 ∧ ch ≠ Char.ofNat 39) →
      escapeHtml s = s) := by
  refine ⟨escapeHtml_no_markup s.toList, escapeHtml_amp s.toList, ?_, ?_⟩
  · simp [unescapeHtml, escapeHtml, unescapeScan_escape]
  · intro h
    have h2 := escapeHtml_plain s.toList h
    unfold escapeHtml
    rw [h2]
    rfl

/-- C17 at a concrete input without special characters. -/
theorem c17_escapeHtml_neutralises_markup_witness : escapeHtml "alice" = "alice" :=
  (c17_escapeHtml_neutralises_markup "alice").2.2.2 (by decide)

theorem pick_nonempty (chars : List Char) (n : Nat) (rnd : Nat → Nat) (k : Nat)
    (hne : chars ≠ []) :
    (pick chars n rnd k).1.length = n ∧ ∀ x ∈ (pick chars n rnd k).1, x ∈ chars := by
  have hlen : chars.length ≠ 0 := by simpa using hne
  have hpos : 0 < chars.length := Nat.pos_of_ne_zero hlen
  unfold pick
  rw [if_neg hlen]
  have key : ∀ (m : Nat) (acc : List Char × Nat),
      ((List.range m).foldl
        (fun (acc : List Char × Nat) _ =>
          (acc.1 ++ (chars.get? (rndAt rnd acc.2 % chars.length)).toList, acc.2 + 1)) acc).1.length
        = acc.1.length + m ∧
      ((∀ x ∈ acc.1, x ∈ chars) →
        ∀ x ∈ ((List.range m).foldl
          (fun (acc : List Char × Nat) _ =>
            (acc.1 ++ (chars.get? (rndAt rnd acc.2 % chars.length)).toList, acc.2 + 1)) acc).1,
          x ∈ chars) := by
    intro m
    induction m with
    | zero => intro acc; simp
    | succ m ih =>
      intro acc
      rw [List.range_succ, List.foldl_append]
      obtain ⟨h1, h2⟩ := ih acc
      have hlt : rndAt rnd ((List.range m).foldl
          (fun (acc : List Char × Nat) _ =>
            (acc.1 ++ (chars.get? (rndAt rnd acc.2 % chars.length)).toList, acc.2 + 1)) acc).2
            % chars.length < chars.length := Nat.mod_lt _ hpos
      constructor
      · simp only [List.foldl_cons, List.foldl_nil, List.length_append, h1]
        rw [List.get?_eq_get hlt]
        simp
        omega
      · intro hacc x hx
        simp only [List.foldl_cons, List.foldl_nil, List.mem_append] at hx
        rcases hx with hx | hx
        · exact h2 hacc x hx
        · rw [List.get?_eq_get hlt] at hx
          simp only [Option.toList, List.mem_singleton] at hx
          rw [hx]
          exact List.get_mem _ _ _
  obtain ⟨h1, h2⟩ := key n ([], k)
  exact ⟨by simpa using h1, h2 (by simp)⟩

theorem shuffleStep_keeps (rnd : Nat → Nat) (acc : List Char × Nat) (i : Nat)
    (hi : i < acc.1.length) :
    (shuffleStep rnd acc i).1.length = acc.1.length ∧
      ∀ x ∈ acc.1, x ∈ (shuffleStep rnd acc i).1 := by
  unfold shuffleStep
  dsimp only
  have hj : rndAt rnd acc.2 % (i + 1) < acc.1.length :=
    Nat.lt_of_lt_of_le (Nat.mod_lt _ (Nat.succ_pos i)) hi
  generalize rndAt rnd acc.2 % (i + 1) = j at hj
  refine ⟨by simp, ?_⟩
  intro x hx
  obtain ⟨n, hn, hxn⟩ := List.getElem_of_mem hx
  rw [List.mem_iff_getElem]
  by_cases hnj : n = j
  · -- the element at `j` moves to `i`
    by_cases hij : i = j
    · refine ⟨j, by simpa using hj, ?_⟩
      subst hnj; subst hij
      simp [List.getD_eq_getElem?_getD, List.getElem?_eq_getElem hn, hxn]
    · refine ⟨i, by simpa using hi, ?_⟩
      subst hnj
      rw [List.getElem_set_ne (by omega)]
      simp [List.getD_eq_getElem?_getD, List.getElem?_eq_getElem hn, hxn]
  · by_cases hni : n = i
    · refine ⟨j, by simpa using hj, ?_⟩
      subst hni
      simp [List.getD_eq_getElem?_getD, List.getElem?_eq_getElem hn, hxn]
    · refine ⟨n, by simpa using hn, ?_⟩
      rw [List.getElem_set_ne (by omega), List.getElem_set_ne (by omega)]
      exact hxn

theorem shuffle_keeps (str : List Char) (rnd : Nat → Nat) (k : Nat) :
    (shuffle str rnd k).1.length = str.length ∧ ∀ x ∈ str, x ∈ (shuffle str rnd k).1 := by
  unfold shuffle
  have key : ∀ (is : List Nat) (acc : List Char × Nat), (∀ i ∈ is, i < acc.1.length) →
      (is.foldl (shuffleStep rnd) acc).1.length = acc.1.length ∧
        ∀ x ∈ acc.1, x ∈ (is.foldl (shuffleStep rnd) acc).1 := by
    intro is
    induction is with
    | nil => intro acc _; exact ⟨rfl, fun x hx => hx⟩
    | cons i is ih =>
      intro acc h
      obtain ⟨h1, h2⟩ := shuffleStep_keeps rnd acc i (h i (List.mem_cons_self _ _))
      obtain ⟨h3, h4⟩ := ih (shuffleStep rnd acc i)
        (fun i2 hi2 => by rw [h1]; exact h i2 (List.mem_cons_of_mem _ hi2))
      exact ⟨h3.trans h1, fun x hx => h4 x (h2 x hx)⟩
  apply key
  intro i hi
  simp only [List.mem_map, List.mem_reverse, List.mem_range] at hi
  obtain ⟨a, ha, rfl⟩ := hi
  show a + 1 < str.length
  omega

theorem class_sets :
    (∀ c ∈ lowers, isLowerCh c = true) ∧ (∀ c ∈ uppers, isUpperCh c = true) ∧
    (∀ c ∈ digits, isDigitCh c = true) ∧ (∀ c ∈ symbols, isSymbolCh c = true) ∧
    lowers ≠ [] ∧ uppers ≠ [] ∧ digits ≠ [] ∧ symbols ≠ [] := by
  decide

theorem appendPick_keeps (chars : List Char) (hne : chars ≠ []) (rnd : Nat → Nat) (u : Bool)
    (b : List Char × Nat) :
    (if u = true then Prod.map (fun x => b.1 ++ x) id (pick chars 1 rnd b.2) else b).1.length
        ≤ b.1.length + 1 ∧
      (∀ x ∈ b.1,
        x ∈ (if u = true then Prod.map (fun x => b.1 ++ x) id (pick chars 1 rnd b.2) else b).1) ∧
      (u = true → ∃ c ∈ chars,
        c ∈ (if u = true then Prod.map (fun x => b.1 ++ x) id (pick chars 1 rnd b.2) else b).1) := by
  obtain ⟨h1, h2⟩ := pick_nonempty chars 1 rnd b.2 hne
  cases u with
  | false => simp
  | true =>
    simp only [if_true, Prod.map_fst, List.length_append, h1, true_implies]
    refine ⟨le_refl _, fun x hx => List.mem_append_left _ hx, ?_⟩
    have hpos : 0 < (pick chars 1 rnd b.2).1.length := by rw [h1]; exact Nat.one_pos
    obtain ⟨c, hc⟩ := List.exists_mem_of_length_pos hpos
    exact ⟨c, h2 c hc, List.mem_append_right _ hc⟩

theorem any_of_mem {p : Char → Bool} {l : List Char} (h : ∃ c ∈ l, p c = true) :
    l.any p = true := by
  obtain ⟨c, hc, hp⟩ := h
  exact List.any_eq_true.mpr ⟨c, hc, hp⟩

theorem symbol_not_alnum (c : Char) (h : isSymbolCh c = true) :
    (!(isDigitCh c || isUpperCh c || isLowerCh c)) = true := by
  unfold isSymbolCh at h
  simp only [Bool.and_eq_true] at h
  exact h.2

theorem generatePassword_classes (options : GenOptions) (rnd : Nat → Nat) :
    HasSelectedClasses options (generatePassword options rnd) := by
  obtain ⟨cL, cU, cD, cS, nL, nU, nD, nS⟩ := class_sets
  unfold generatePassword
  lift_lets
  extract_lets len0 length uL uU uD uS pool0 pool b1 b2 b3 b4 base rest p0 hL hU hD hS p1 p2 p3 p4
  -- the base holds one character of each selected class
  have hb1 : b1.1.length ≤ 1 ∧ (uL = true → ∃ c ∈ lowers, c ∈ b1.1) := by
    obtain ⟨h1, h2⟩ := pick_nonempty lowers 1 rnd 0 nL
    cases huL : uL with
    | false => simp [b1, huL]
    | true =>
      simp only [b1, huL, if_true, h1, true_implies]
      refine ⟨le_refl _, ?_⟩
      have hpos : 0 < (pick lowers 1 rnd 0).1.length := by rw [h1]; exact Nat.one_pos
      obtain ⟨c, hc⟩ := List.exists_mem_of_length_pos hpos
      exact ⟨c, h2 c hc, hc⟩
  obtain ⟨h21, h22, h23⟩ := appendPick_keeps uppers nU rnd uU b1
  obtain ⟨h31, h32, h33⟩ := appendPick_keeps digits nD rnd uD b2
  obtain ⟨h41, h42, h43⟩ := appendPick_keeps symbols nS rnd uS b3
  change b2.1.length ≤ b1.1.length + 1 at h21
  change ∀ x ∈ b1.1, x ∈ b2.1 at h22
  change uU = true → ∃ c ∈ uppers, c ∈ b2.1 at h23
  change b3.1.length ≤ b2.1.length + 1 at h31
  change ∀ x ∈ b2.1, x ∈ b3.1 at h32
  change uD = true → ∃ c ∈ digits, c ∈ b3.1 at h33
  change base.length ≤ b3.1.length + 1 at h41
  change ∀ x ∈ b3.1, x ∈ base at h42
  change uS = true → ∃ c ∈ symbols, c ∈ base at h43
  have hbase_len : base.length ≤ 4 := by omega
  -- the pool is not empty, so the rest fills the password up to `length`
  have hpool : pool ≠ [] := by
    cases hp : pool0 with
    | nil => simp [pool, hp, lowers]
    | cons x xs => simp [pool, hp]
  obtain ⟨hrest, _⟩ := pick_nonempty pool (length - (base.length : Int)).toNat rnd b4.2 hpool
  change rest.1.length = (length - (base.length : Int)).toNat at hrest
  obtain ⟨hlen0, hmem0⟩ := shuffle_keeps (base ++ rest.1) rnd rest.2
  change p0.1.length = (base ++ rest.1).length at hlen0
  change ∀ x ∈ base ++ rest.1, x ∈ p0.1 at hmem0
  have h8 : 8 ≤ length := le_max_left _ _
  have hp0len : (p0.1.length : Int) = length := by
    rw [hlen0, List.length_append, hrest]
    omega
  have hin : ∀ x ∈ base, x ∈ p0.1 := fun x hx => hmem0 x (List.mem_append_left _ hx)
  have eL : uL = true → ∃ c ∈ p0.1, isLowerCh c = true := by
    intro h
    obtain ⟨c, hc1, hc2⟩ := hb1.2 h
    exact ⟨c, hin c (h42 c (h32 c (h22 c hc2))), cL c hc1⟩
  have eU : uU = true → ∃ c ∈ p0.1, isUpperCh c = true := by
    intro h
    obtain ⟨c, hc1, hc2⟩ := h23 h
    exact ⟨c, hin c (h42 c (h32 c hc2)), cU c hc1⟩
  have eD : uD = true → ∃ c ∈ p0.1, isDigitCh c = true := by
    intro h
    obtain ⟨c, hc1, hc2⟩ := h33 h
    exact ⟨c, hin c (h42 c hc2), cD c hc1⟩
  have eS : uS = true → ∃ c ∈ p0.1, isSymbolCh c = true := by
    intro h
    obtain ⟨c, hc1, hc2⟩ := h43 h
    exact ⟨c, hin c hc2, cS c hc1⟩
  -- so the verification finds every selected class and patches nothing
  have q1 : p1 = p0 := by
    cases huL : uL with
    | false => simp [p1, huL]
    | true => simp [p1, hL, any_of_mem (eL huL)]
  have q2 : p2 = p0 := by
    cases huU : uU with
    | false => simp [p2, huU, q1]
    | true => simp [p2, hU, any_of_mem (eU huU), q1]
  have q3 : p3 = p0 := by
    cases huD : uD with
    | false => simp [p3, huD, q2]
    | true => simp [p3, hD, any_of_mem (eD huD), q2]
  have q4 : p4 = p0 := by
    cases huS : uS with
    | false => simp [p4, huS, q3]
    | true =>
      obtain ⟨c, hc1, hc2⟩ := eS huS
      have : hS = true := any_of_mem ⟨c, hc1, symbol_not_alnum c hc2⟩
      simp [p4, this, q3]
  rw [q4]
  refine ⟨hp0len, ?_, ?_, ?_, ?_⟩
  · intro h; exact eL (by simpa [uL] using h)
  · intro h; exact eU (by simpa [uU] using h)
  · intro h; exact eD (by simpa [uD] using h)
  · intro h; exact eS (by simpa [uS] using h)

/-! ## Password generator -/

/-- C15. `generatePassword` contains every selected character class: the password has
length `max(8, min(128, length or 16))` and contains a lowercase letter, an uppercase
letter, a digit and a non-alphanumeric printable ASCII symbol, each unless the
corresponding option is `false`; for every options value and every random source. -/
theorem c15_generatePassword_has_selected_classes (options : GenOptions) (rnd : Nat → Nat) :
    ((generatePassword options rnd).length : Int)
        = max 8 (min 128 (match options.length with
            | none => 16
            | some n => if n = 0 then 16 else n)) ∧
    (options.lower ≠ some false → ∃ ch ∈ generatePassword options rnd, isLowerCh ch = true) ∧
    (options.upper ≠ some false → ∃ ch ∈ generatePassword options rnd, isUpperCh ch = true) ∧
    (options.digits ≠ some false → ∃ ch ∈ generatePassword options rnd, isDigitCh ch = true) ∧
    (options.symbols ≠ some false →
      ∃ ch ∈ generatePassword options rnd,
        33 ≤ ch.toNat ∧ ch.toNat ≤ 126 ∧ isDigitCh ch = false ∧ isUpperCh ch = false ∧
          isLowerCh ch = false) := by
  obtain ⟨h1, h2, h3, h4, h5⟩ := generatePassword_classes options rnd
  refine ⟨h1, h2, h3, h4, ?_⟩
  intro h
  obtain ⟨ch, hch, hs⟩ := h5 h
  have hs2 : (33 ≤ ch.toNat ∧ ch.toNat ≤ 126) ∧
      (isDigitCh ch = false ∧ isUpperCh ch = false) ∧ isLowerCh ch = false := by
    simpa [isSymbolCh] using hs
  exact ⟨ch, hch, hs2.1.1, hs2.1.2, hs2.2.1.1, hs2.2.1.2, hs2.2.2⟩

/-- C15 at a concrete input: default options with a requested length of 20. -/
theorem c15_generatePassword_has_selected_classes_witness :
    ((generatePassword
        { length := some 20, lower := none, upper := none, digits := none, symbols := none }
        env0.rnd).length : Int) = 20 :=
  (c15_generatePassword_has_selected_classes
    { length := some 20, lower := none, upper := none, digits := none, symbols := none }
    env0.rnd).1

theorem userStep_some (pw u : Nat) (p : Nat × InputEl) : userStep pw (some u) p = some u := by
  unfold userStep orEl
  by_cases h : p.1 = pw
  · simp [h]
  · cases h1 : typeMatches p.2 <;> cases h2 : autocompleteMatches p.2 <;>
      cases h3 : hintMatches p.2 <;> simp [h]

theorem foldl_userStep_some (pw u : Nat) (scope : List (Nat × InputEl)) :
    scope.foldl (userStep pw) (some u) = some u := by
  induction scope with
  | nil => rfl
  | cons p ps ih => rw [List.foldl_cons, userStep_some, ih]

theorem userStep_none (pw : Nat) (p : Nat × InputEl) :
    userStep pw none p = if (decide (p.1 ≠ pw) && anyTestMatches p.2) = true then some p.1 else none := by
  unfold userStep orEl anyTestMatches
  by_cases h : p.1 = pw
  · simp [h]
  · cases h1 : typeMatches p.2 <;> cases h2 : autocompleteMatches p.2 <;>
      cases h3 : hintMatches p.2 <;> simp [h]

theorem findUser_eq_first_match (scope : List (Nat × InputEl)) (pw : Nat) :
    findUser scope pw =
      (scope.find? (fun p => decide (p.1 ≠ pw) && anyTestMatches p.2)).map (fun p => p.1) := by
  unfold findUser
  induction scope with
  | nil => rfl
  | cons p ps ih =>
    rw [List.foldl_cons, userStep_none, List.find?_cons]
    cases h : (decide (p.1 ≠ pw) && anyTestMatches p.2)
    · simpa using ih
    · simp [foldl_userStep_some]

theorem findFields_user (pg : Page) (f : Fields) (h : findFields pg = some f) :
    f.user = findUser (scopeInputs pg f.form) f.pw := by
  unfold findFields at h
  dsimp only at h
  split at h
  · exact absurd h (by simp)
  · simp only [Option.some.injEq] at h
    rw [← h]

theorem findFields_pw (pg : Page) (f : Fields) (h : findFields pg = some f) :
    ∃ el, pg.inputs[f.pw]? = some el ∧ el.form = f.form := by
  unfold findFields at h
  dsimp only at h
  split at h
  · exact absurd h (by simp)
  · rename_i first rest hpw
    simp only [Option.some.injEq] at h
    have hfirst : first ∈ pg.inputs.enum := by
      have : first ∈ first :: rest := List.mem_cons_self _ _
      rw [← hpw] at this
      exact (List.mem_filter.mp this).1
    split at h
    · rename_i cand hc
      have hmem : cand ∈ pg.inputs.enum := by
        have := List.mem_of_find?_eq_some hc
        exact (List.mem_filter.mp this).1
      rw [← h]
      exact ⟨cand.2, List.mem_enum_iff_getElem?.mp hmem, rfl⟩
    · rw [← h]
      exact ⟨first.2, List.mem_enum_iff_getElem?.mp hfirst, rfl⟩

theorem scopeInputs_mem (pg : Page) (form : Option Nat) (p : Nat × InputEl)
    (h : p ∈ scopeInputs pg form) : pg.inputs[p.1]? = some p.2 := by
  unfold scopeInputs at h
  split at h
  · exact List.mem_enum_iff_getElem?.mp (List.mem_filter.mp h).1
  · exact List.mem_enum_iff_getElem?.mp h

theorem findFields_user_valid (pg : Page) (f : Fields) (u : Nat)
    (h : findFields pg = some f) (hu : f.user = some u) :
    u ≠ f.pw ∧ ∃ el, pg.inputs[u]? = some el := by
  rw [findFields_user pg f h, findUser_eq_first_match] at hu
  simp only [Option.map_eq_some'] at hu
  obtain ⟨p, hp, rfl⟩ := hu
  have h1 := List.find?_some hp
  have h2 := scopeInputs_mem pg f.form p (List.mem_of_find?_eq_some hp)
  simp only [Bool.and_eq_true, decide_eq_true_eq] at h1
  exact ⟨h1.1, p.2, h2⟩

theorem updateInput_at (pg : Page) (i : Nat) (g : InputEl → InputEl) (el : InputEl)
    (h : pg.inputs[i]? = some el) :
    (updateInput pg i g).inputs[i]? = some (g el) ∧
      (∀ j, j ≠ i → (updateInput pg i g).inputs[j]? = pg.inputs[j]?) ∧
      (updateInput pg i g).pickers = pg.pickers ∧
      (updateInput pg i g).submitForms = pg.submitForms := by
  have hi : i < pg.inputs.length := by
    rcases Nat.lt_or_ge i pg.inputs.length with hlt | hge
    · exact hlt
    · rw [List.getElem?_eq_none hge] at h; exact absurd h (by simp)
  unfold updateInput
  rw [h]
  refine ⟨?_, ?_, rfl, rfl⟩
  · simp [List.getElem?_set, hi]
  · intro j hj
    simp [List.getElem?_set, Ne.symm hj]

theorem applyOne_at (pg : Page) (i : Nat) (v : String) (el : InputEl)
    (h : pg.inputs[i]? = some el) :
    (updateInput (setValue pg i v) i (fun e => { e with applied := true })).inputs[i]?
        = some { el with value := v, edited := true, applied := true } ∧
      (∀ j, j ≠ i →
        (updateInput (setValue pg i v) i (fun e => { e with applied := true })).inputs[j]?
          = pg.inputs[j]?) ∧
      (updateInput (setValue pg i v) i (fun e => { e with applied := true })).pickers
        = pg.pickers := by
  obtain ⟨a1, a2, a3, _⟩ :=
    updateInput_at pg i (fun e => { e with value := v, edited := true }) el h
  obtain ⟨b1, b2, b3, _⟩ :=
    updateInput_at (setValue pg i v) i (fun e => { e with applied := true }) _ a1
  exact ⟨b1, fun j hj => (b2 j hj).trans (a2 j hj), b3.trans a3⟩

theorem applyCred_effect (pg : Page) (f : Fields) (c : Credential)
    (h : findFields pg = some f) :
    (∃ el, pg.inputs[f.pw]? = some el ∧
      (applyCred c pg).inputs[f.pw]?
        = some { el with value := c.password, edited := true, applied := true }) ∧
    (∀ u, f.user = some u → c.username ≠ "" →
      ∃ el, pg.inputs[u]? = some el ∧
        (applyCred c pg).inputs[u]?
          = some { el with value := c.username, edited := true, applied := true }) ∧
    (∀ j, j ≠ f.pw → f.user ≠ some j → (applyCred c pg).inputs[j]? = pg.inputs[j]?) ∧
    (applyCred c pg).pickers = pg.pickers := by
  obtain ⟨elp, hp, _⟩ := findFields_pw pg f h
  unfold applyCred
  rw [h]
  dsimp only
  cases hu : f.user with
  | none =>
    dsimp only
    obtain ⟨a1, a2, a3⟩ := applyOne_at pg f.pw c.password elp hp
    exact ⟨⟨elp, hp, a1⟩, fun u hu2 => by simp at hu2, fun j hj _ => a2 j hj, a3⟩
  | some u =>
    obtain ⟨hne, elu, helu⟩ := findFields_user_valid pg f u h hu
    dsimp only
    by_cases hname : c.username = ""
    · have hif : (if c.username ≠ "" then
          updateInput (setValue pg u c.username) u (fun el => { el with applied := true })
          else pg) = pg := by simp [hname]
      rw [hif]
      obtain ⟨a1, a2, a3⟩ := applyOne_at pg f.pw c.password elp hp
      exact ⟨⟨elp, hp, a1⟩, fun u2 _ hc => absurd hname hc, fun j hj _ => a2 j hj, a3⟩
    · have hif : (if c.username ≠ "" then
          updateInput (setValue pg u c.username) u (fun el => { el with applied := true })
          else pg)
          = updateInput (setValue pg u c.username) u (fun el => { el with applied := true }) := by
        simp [hname]
      rw [hif]
      obtain ⟨a1, a2, a3⟩ := applyOne_at pg u c.username elu helu
      have hp2 := (a2 f.pw (Ne.symm hne)).trans hp
      obtain ⟨b1, b2, b3⟩ := applyOne_at _ f.pw c.password elp hp2
      refine ⟨⟨elp, hp, b1⟩, ?_, ?_, b3.trans a3⟩
      · intro u2 hu2 _
        simp only [Option.some.injEq] at hu2
        subst hu2
        exact ⟨elu, helu, (b2 u hne).trans a1⟩
      · intro j hj hju
        have hju2 : j ≠ u := fun e => hju (by rw [e])
        exact (b2 j hj).trans (a2 j hju2)

theorem maybeAutofill_requests (env : Env) (origin : String) (showPicker : Bool) (pg : Page)
    (bg bg1 : State cr) (f : Fields) (creds : List Credential)
    (hf : findFields pg = some f)
    (hu : ∀ u, f.user = some u → isEdited pg u = false)
    (hp : isEdited pg f.pw = false)
    (ha : appliedWithValue pg f.pw = false)
    (hr : onMessage env (.getCredentialsForOrigin origin) bg = (bg1, .okCreds creds)) :
    (maybeAutofill env origin showPicker pg bg).requested = true ∧
    (maybeAutofill env origin showPicker pg bg).background = bg1 ∧
    (creds = [] → (maybeAutofill env origin showPicker pg bg).page = pg) ∧
    (∀ c, creds = [c] → (maybeAutofill env origin showPicker pg bg).page = applyCred c pg) ∧
    (2 ≤ creds.length → showPicker = true →
      (maybeAutofill env origin showPicker pg bg).page = renderPicker creds pg) ∧
    (2 ≤ creds.length → showPicker = false →
      (maybeAutofill env origin showPicker pg bg).page = pg) := by
  have hu2 : (match f.user with
      | some u => isEdited pg u
      | none => false) = false := by
    cases h : f.user with
    | none => rfl
    | some u => exact hu u h
  unfold maybeAutofill
  rw [hf]
  dsimp only
  rw [hu2, hp, ha, hr]
  simp only [Bool.or_self, Bool.false_eq_true, if_false]
  match creds with
  | [] => simp
  | [c] => simp
  | _ :: _ :: _ => cases showPicker <;> simp

/-! ## Field-matching engine -/

/-- C12 as stated fails: on a page whose inputs are a telephone field named `phone`, a text
field and the password field, `findFields` returns the telephone field (matched by a
naming hint), while tier priority names the text field. -/
theorem c12_first_match_beats_type_tier :
    findFields pagePhone = some { form := none, user := some 0, pw := 2 } ∧
      typeMatches { blankInput with type := "tel", name := "phone" } = false ∧
      typeMatches { blankInput with type := "text", name := "q" } = true ∧
      tierPriorityUser (scopeInputs pagePhone none) 2 = some 1 := by
  decide

/-- C12 (amended). The identifier field that `findFields` returns is the first input of
the search scope, other than the chosen password field, that passes at least one of the
three tests (type text/email/username, autocomplete hint username/email, a naming hint in
name, id or placeholder), whichever test it passes; and there is no identifier field
when no such input passes any test. -/
theorem c12_identifier_is_first_match (pg : Page) (f : Fields) (h : findFields pg = some f) :
    f.user =
      ((scopeInputs pg f.form).find? (fun p =>
        decide (p.1 ≠ f.pw) &&
          (typeMatches p.2 || autocompleteMatches p.2 || hintMatches p.2))).map (fun p => p.1) ∧
    ((∀ p ∈ scopeInputs pg f.form, p.1 ≠ f.pw →
        typeMatches p.2 = false ∧ autocompleteMatches p.2 = false ∧ hintMatches p.2 = false) →
      f.user = none) := by
  have h1 := (findFields_user pg f h).trans (findUser_eq_first_match _ _)
  refine ⟨h1, ?_⟩
  intro hnone
  rw [h1, Option.map_eq_none', List.find?_eq_none]
  intro p hp
  by_cases hpw : p.1 = f.pw
  · simp [hpw]
  · obtain ⟨a, b, c⟩ := hnone p hp hpw
    simp [anyTestMatches, a, b, c]

/-- C12 (amended) at a concrete input: the login page. -/
theorem c12_identifier_is_first_match_witness :
    findFields pageLogin = some { form := some 0, user := some 0, pw := 1 } ∧
      (some 0 : Option Nat) =
        ((scopeInputs pageLogin (some 0)).find? (fun p =>
          decide (p.1 ≠ 1) &&
            (typeMatches p.2 || autocompleteMatches p.2 || hintMatches p.2))).map (fun p => p.1) :=
  ⟨by decide,
    (c12_identifier_is_first_match pageLogin { form := some 0, user := some 0, pw := 1 }
      (by decide)).1⟩

/-- C13 as stated fails: with two matching credentials and `showPicker` false (the focus
and mutation triggers) the request is made, no picker is presented and no field changes. -/
theorem c13_no_picker_without_showPicker :
    (onMessage env0 (.getCredentialsForOrigin "https://a.example") stateTwo).2
        = .okCreds [credA, { credB with origins := some ["https://a.example"] }] ∧
      (maybeAutofill env0 "https://a.example" false pageLogin stateTwo).requested = true ∧
      (maybeAutofill env0 "https://a.example" false pageLogin stateTwo).page = pageLogin ∧
      (maybeAutofill env0 "https://a.example" false pageLogin stateTwo).page.pickers = [] := by
  decide

/-- C13 (amended). When `maybeAutofill` reaches the credential request (fields found,
neither field user-edited, not already applied) and the response is a success: with no
credential the page is unchanged; with exactly one it is applied directly (the password
field gets its password, the identifier field its non-empty username, both get the
applied mark, no picker is added); with more than one the picker is presented when
`showPicker` is true and nothing happens when it is false, and in both cases no field
changes. -/
theorem c13_autofill_by_credential_count (env : Env) (origin : String) (showPicker : Bool)
    (pg : Page) (bg : State cr) (f : Fields) (creds : List Credential)
    (hf : findFields pg = some f)
    (hu : ∀ u, f.user = some u → isEdited pg u = false)
    (hp : isEdited pg f.pw = false)
    (ha : appliedWithValue pg f.pw = false)
    (hr : (onMessage env (.getCredentialsForOrigin origin) bg).2 = .okCreds creds) :
    (maybeAutofill env origin showPicker pg bg).requested = true ∧
    (creds = [] → (maybeAutofill env origin showPicker pg bg).page = pg) ∧
    (∀ c, creds = [c] →
      (maybeAutofill env origin showPicker pg bg).page = applyCred c pg ∧
      (∃ el, pg.inputs[f.pw]? = some el ∧
        (maybeAutofill env origin showPicker pg bg).page.inputs[f.pw]?
          = some { el with value := c.password, edited := true, applied := true }) ∧
      (∀ u, f.user = some u → c.username ≠ "" →
        ∃ el, pg.inputs[u]? = some el ∧
          (maybeAutofill env origin showPicker pg bg).page.inputs[u]?
            = some { el with value := c.username, edited := true, applied := true }) ∧
      (maybeAutofill env origin showPicker pg bg).page.pickers = pg.pickers) ∧
    (2 ≤ creds.length → showPicker = true →
      (maybeAutofill env origin showPicker pg bg).page
        = { pg with pickers := pg.pickers ++ [creds.take 6] }) ∧
    (2 ≤ creds.length → showPicker = false →
      (maybeAutofill env origin showPicker pg bg).page = pg) := by
  have hr2 : onMessage env (.getCredentialsForOrigin origin) bg
      = ((onMessage env (.getCredentialsForOrigin origin) bg).1, .okCreds creds) := by
    rw [← hr]
  obtain ⟨r1, _, r3, r4, r5, r6⟩ :=
    maybeAutofill_requests env origin showPicker pg bg _ f creds hf hu hp ha hr2
  refine ⟨r1, r3, ?_, ?_, r6⟩
  · intro c h
    obtain ⟨e1, e2, _, e4⟩ := applyCred_effect pg f c hf
    rw [r4 c h]
    exact ⟨rfl, e1, e2, e4⟩
  · intro h hs
    rw [r5 h hs]
    rfl

/-- C13 (amended) at a concrete input: one matching credential on the login page. -/
theorem c13_autofill_by_credential_count_witness :
    (maybeAutofill env0 "https://a.example" false pageLogin stateAB).page
      = applyCred credA pageLogin :=
  ((c13_autofill_by_credential_count env0 "https://a.example" false pageLogin stateAB
      { form := some 0, user := some 0, pw := 1 } [credA]
      (by decide) (by decide) (by decide) (by decide) (by decide)).2.2.1 credA rfl).1

/-- C14. Skip-on-edit: when the password field or the identifier field that `findFields`
discovers is marked user-edited, `maybeAutofill` requests no credentials and leaves the
page (every value and every applied mark) and the background worker exactly as they
were, whatever the vault holds and whatever `showPicker` is. -/
theorem c14_skip_on_edit (env : Env) (origin : String) (showPicker : Bool)
    (pg : Page) (bg : State cr) (f : Fields)
    (hf : findFields pg = some f)
    (he : isEdited pg f.pw = true ∨ ∃ u, f.user = some u ∧ isEdited pg u = true) :
    (maybeAutofill env origin showPicker pg bg).requested = false ∧
    (maybeAutofill env origin showPicker pg bg).page = pg ∧
    (maybeAutofill env origin showPicker pg bg).background = bg := by
  have hcond : ((match f.user with
      | some u => isEdited pg u
      | none => false) || isEdited pg f.pw) = true := by
    rcases he with h | ⟨u, hu, h⟩
    · simp [h]
    · simp [hu, h]
  unfold maybeAutofill
  rw [hf]
  dsimp only
  rw [if_pos hcond]
  exact ⟨rfl, rfl, rfl⟩

/-- C14 at a concrete input: the password field of the login page is marked edited and
the vault holds exactly one matching credential. -/
theorem c14_skip_on_edit_witness :
    (onMessage env0 (.getCredentialsForOrigin "https://a.example") stateAB).2
        = .okCreds [credA] ∧
      (maybeAutofill env0 "https://a.example" true
        (updateInput pageLogin 1 (fun el => { el with edited := true })) stateAB).page
        = updateInput pageLogin 1 (fun el => { el with edited := true }) :=
  ⟨by decide,
    (c14_skip_on_edit env0 "https://a.example" true
      (updateInput pageLogin 1 (fun el => { el with edited := true })) stateAB
      { form := some 0, user := some 0, pw := 1 } (by decide) (Or.inl (by decide))).2.1⟩

theorem finishUnlock_alarm (env : Env) (key : cr.Key) (s : State cr) :
    (finishUnlock env key s).1.alarm = some (autolockMinutes s.autolockMs) ∧
      (finishUnlock env key s).1.unlockedAt = env.now := by
  unfold finishUnlock
  split <;> exact ⟨rfl, rfl⟩

theorem handleUnlock_alarm (env : Env) (pw : String) (s : State cr)
    (hok : (handleUnlock env pw s).2 = .ok) :
    (handleUnlock env pw s).1.alarm = some (autolockMinutes (ensureInit env s).autolockMs) ∧
      (handleUnlock env pw s).1.unlockedAt = env.now := by
  unfold handleUnlock at hok ⊢
  dsimp only at hok ⊢
  split
  · rename_i heq; rw [heq] at hok; simp at hok
  · rename_i key heq
    rw [heq] at hok
    dsimp only at hok
    split
    · rename_i enc hv
      rw [hv] at hok
      dsimp only at hok
      split
      · rename_i hdec; rw [hdec] at hok; simp at hok
      · exact finishUnlock_alarm env key _
    · exact finishUnlock_alarm env key _

theorem ensureInit_loads (env : Env) (s : State cr) (m : VaultMeta)
    (hm : s.localMeta = some m) (hne : m.autolockMs ≠ 0) :
    (ensureInit env s).autolockMs = m.autolockMs := by
  simp [ensureInit, loadMeta, hm, hne]

theorem setAutolock_stateAB (x : ℚ) (hx : 60000 ≤ x) :
    onMessage env0 (.setAutolock (.finite x)) stateAB
      = (resetAutolockTimer env0
          { saveMeta { metaA with autolockMs := x } stateAB with autolockMs := x }, .ok) := by
  have h2 : ¬ x < 60 * 1000 := by norm_num; exact hx
  simp only [onMessage, handleSetAutolock, if_neg h2]
  rfl

/-! ## Timer delay -/

/-- C10 as stated fails, in three ways, each from `stateAB` (unlocked). `SET_AUTOLOCK`
with 90000 ms arms the alarm with 2 minutes, which is 120000 ms. After `SET_AUTOLOCK` with
600000 ms, a restart of the worker and a resumed `LIST_CREDENTIALS` arm the alarm with the
default 5 minutes while the metadata still says 600000. `SET_AUTOLOCK` with
270000000000029984 ms (a double) arms 4500000000001 minutes, because the quotient rounds
to a double ending in one half: 30016 ms more than the duration. -/
theorem c10_delay_differs_from_duration :
    ((onMessage env0 (.setAutolock (.finite 90000)) stateAB).1.localMeta
        = some { metaA with autolockMs := 90000 } ∧
      (onMessage env0 (.setAutolock (.finite 90000)) stateAB).1.alarm = some 2 ∧
      (2 : Int) * 60000 ≠ 90000) ∧
    ((run [.message env0 (.setAutolock (.finite 600000)), .restarted,
          .message env0 .listCredentials] stateAB).2 = [.ok, .okCreds [credA, credB]] ∧
      (run [.message env0 (.setAutolock (.finite 600000)), .restarted,
          .message env0 .listCredentials] stateAB).1.localMeta
        = some { metaA with autolockMs := 600000 } ∧
      (run [.message env0 (.setAutolock (.finite 600000)), .restarted,
          .message env0 .listCredentials] stateAB).1.alarm = some 5) ∧
    ((onMessage env0 (.setAutolock (.finite 270000000000029984)) stateAB).1.localMeta
        = some { metaA with autolockMs := 270000000000029984 } ∧
      (onMessage env0 (.setAutolock (.finite 270000000000029984)) stateAB).1.alarm
        = some 4500000000001 ∧
      (4500000000001 : Int) * 60000 - 270000000000029984 = 30016) := by
  have h1 := setAutolock_stateAB 90000 (by norm_num)
  have h2 := setAutolock_stateAB 600000 (by norm_num)
  have h3 := setAutolock_stateAB 270000000000029984 (by norm_num)
  refine ⟨⟨?_, ?_, by decide⟩, ⟨?_, ?_, ?_⟩, ⟨?_, ?_, by decide⟩⟩
  · rw [h1]; rfl
  · rw [h1]
    show some (autolockMinutes 90000) = some 2
    rw [autolockMinutes_90000]
  · simp only [run, step, h2]
    rfl
  · simp only [run, step, h2]
    rfl
  · simp only [run, step, h2]
    show some (autolockMinutes (5 * 60 * 1000)) = some 5
    rw [autolockMinutes_default]
  · rw [h3]; rfl
  · rw [h3]
    show some (autolockMinutes 270000000000029984) = some 4500000000001
    rw [autolockMinutes_large]

/-- C10 (amended). Let `d >= 60000` be the configured duration, stored in the metadata
record. When the worker holds `d` in its in-memory duration, `resetAutolockTimer` arms the
alarm with `Math.round(d / 60000)` minutes (at least 1) and stamps the current time; a
successful `UNLOCK` loads `d` from the metadata and arms the alarm with it, whatever the
in-memory duration was before. When `d` is a whole number of milliseconds up to
`2 ^ 53 - 1` that delay is `d / 60000` rounded to the nearest integer (half up): within
30000 ms of `d`, and `d` itself when `d` is a whole number of minutes. -/
theorem c10_timer_delay_rounds_to_minutes (env : Env) (s : State cr) (m : VaultMeta) (d : ℚ)
    (hd : 60000 ≤ d) (hm : s.localMeta = some m) (hmd : m.autolockMs = d) :
    (s.autolockMs = d →
      (resetAutolockTimer env s).alarm = some (autolockMinutes d) ∧
      (resetAutolockTimer env s).unlockedAt = env.now) ∧
    (∀ pw : String, (onMessage env (.unlock pw) s).2 = .ok →
      (onMessage env (.unlock pw) s).1.autolockMs = d ∧
      (onMessage env (.unlock pw) s).1.alarm = some (autolockMinutes d) ∧
      (onMessage env (.unlock pw) s).1.unlockedAt = env.now) ∧
    (∀ n : Int, d = (n : ℚ) → n ≤ 9007199254740991 →
      autolockMinutes d = (n + 30000) / 60000 ∧
      -30000 < (n + 30000) / 60000 * 60000 - n ∧
      (n + 30000) / 60000 * 60000 - n ≤ 30000 ∧
      (n % 60000 = 0 → (n + 30000) / 60000 * 60000 = n)) := by
  have hne : m.autolockMs ≠ 0 := by
    rw [hmd]; intro h0; rw [h0] at hd; norm_num at hd
  refine ⟨?_, ?_, ?_⟩
  · intro hs
    exact ⟨by simp [resetAutolockTimer, hs], rfl⟩
  · intro pw hok
    have hload := ensureInit_loads env s m hm hne
    obtain ⟨a1, a2⟩ := handleUnlock_alarm env pw s hok
    refine ⟨?_, ?_, a2⟩
    · exact ((handleUnlock_meta env pw s).2.trans hload).trans hmd
    · show (handleUnlock env pw s).1.alarm = some (autolockMinutes d)
      rw [a1, hload, hmd]
  · intro n hn hsafe
    have hn1 : 60000 ≤ n := by
      rw [hn] at hd
      exact_mod_cast hd
    rw [hn, autolockMinutes_safe n hn1 hsafe]
    exact ⟨rfl, by omega, by omega, by omega⟩

/-- C10 (amended) at the default duration of five minutes, held by `stateAB`. -/
theorem c10_timer_delay_rounds_to_minutes_witness :
    (resetAutolockTimer env0 stateAB).alarm = some (autolockMinutes 300000) ∧
      autolockMinutes 300000 = (300000 + 30000) / 60000 :=
  ⟨((c10_timer_delay_rounds_to_minutes env0 stateAB metaA 300000 (by norm_num) rfl rfl).1
      rfl).1,
    ((c10_timer_delay_rounds_to_minutes env0 stateAB metaA 300000 (by norm_num) rfl
      rfl).2.2 300000 (by norm_num) (by norm_num)).1⟩

end PassVault
